import Mathlib

/-!
Verification of the natural-language specification of the `onnodb/solutions`
repository (file `src/event-session-signup/src/Code.js`, which concatenates
two Google Apps Script programs: a conference calendar/form synchronizer and
a timesheet script) against a shallow embedding of that source in Lean.

Modelling conventions, in order of appearance in the source:

* `JSDate` models a JavaScript `Date` down to the fields the source touches:
  `joinDateAndTime_` copies the date part of one cell and the hours/minutes
  of another, so a date is (day-part, hours, minutes).
* A spreadsheet row of the `Conference Setup` sheet is a `Row`; the sixth
  column (`session[5]`, the stored event id) is an `Option Nat` — `none`
  models a null/empty cell, ids are opaque naturals.  `CalendarApp` event
  lookup (`getEventById`) of a null/empty id yields null, which the model
  folds into `getEventById none = none`.
* A calendar is the list of its events plus a fresh-id counter; the Advanced
  Calendar API `Events.insert` returns an event carrying a fresh id.
  The `conferenceData`/`sendUpdates` arguments of `Events.insert` carry no
  row data and are not represented.
* External calls issued by the row loop of `setUpCalendar_` are traced as
  `CalCall`s: one `create` or `update` per row.  The `delete` constructor
  exists so that "never deletes" is a non-vacuous statement — the source
  never emits it.
* Transient failure of the external create/update call for a row is modelled
  by a failure schedule `fail : Nat → Bool` (row index ↦ does the call for
  that row throw).  An exception aborts the pass before `range.setValues`,
  so the sheet keeps its original values, while calendar-side effects of
  already-processed rows persist.
-/

structure JSDate where
  day : Nat
  hours : Nat
  minutes : Nat
deriving DecidableEq, Repr

/-- `joinDateAndTime_(date, time)`: copy `date`, overwrite hours and minutes
from `time`. -/
def joinDateAndTime (date time : JSDate) : JSDate :=
  { day := date.day, hours := time.hours, minutes := time.minutes }

/-- One data row of the `Conference Setup` sheet:
`session[0]` title, `session[1]` date, `session[2]` start time,
`session[3]` end time, `session[4]` location, `session[5]` stored event id. -/
structure Row where
  title : String
  date : JSDate
  startTime : JSDate
  endTime : JSDate
  location : String
  storedId : Option Nat
deriving DecidableEq, Repr

/-- The event payload built from a row (`summary`/`start`/`end`/`location`
of the `Events.insert` payload; the update branch pushes the same four
fields through `setTitle`/`setTime`/`setLocation`). -/
structure EventPayload where
  summary : String
  start : JSDate
  endTime : JSDate
  location : String
deriving DecidableEq, Repr

def Row.payload (r : Row) : EventPayload :=
  { summary := r.title
  , start := joinDateAndTime r.date r.startTime
  , endTime := joinDateAndTime r.date r.endTime
  , location := r.location }

structure CalEvent where
  id : Nat
  title : String
  start : JSDate
  endTime : JSDate
  location : String
  guestsCanSeeGuests : Bool
deriving DecidableEq, Repr

structure Calendar where
  events : List CalEvent
  nextEventId : Nat
deriving DecidableEq, Repr

/-- `cal.getEventById(id)`; a null/empty id cell resolves to null. -/
def Calendar.getEventById (c : Calendar) : Option Nat → Option CalEvent
  | none => none
  | some i => c.events.find? (fun e => e.id == i)

/-- `Calendar.Events.insert(payload, calId, ...)`: a new event with a fresh
id; returns the new calendar and the id of the inserted event. -/
def Calendar.insertEvent (c : Calendar) (p : EventPayload) : Calendar × Nat :=
  ({ events := c.events ++
        [{ id := c.nextEventId, title := p.summary, start := p.start
         , endTime := p.endTime, location := p.location
         , guestsCanSeeGuests := false }]
   , nextEventId := c.nextEventId + 1 }, c.nextEventId)

/-- Apply an in-place mutation to the event with the given id. -/
def Calendar.mapEvent (c : Calendar) (i : Nat) (f : CalEvent → CalEvent) : Calendar :=
  { c with events := c.events.map (fun e => if e.id == i then f e else e) }

/-- The update branch of the row loop: `setTitle`, `setTime`, `setLocation`
followed by the unconditional `setGuestsCanSeeGuests(true)`. -/
def Calendar.updateEvent (c : Calendar) (i : Nat) (p : EventPayload) : Calendar :=
  c.mapEvent i (fun e =>
    { e with title := p.summary, start := p.start, endTime := p.endTime
           , location := p.location, guestsCanSeeGuests := true })

inductive CalCall where
  | create (p : EventPayload)
  | update (id : Nat) (p : EventPayload)
  | delete (id : Nat)
deriving DecidableEq, Repr

def CalCall.isCreate : CalCall → Bool
  | .create _ => true
  | _ => false

def CalCall.isUpdate : CalCall → Bool
  | .update _ _ => true
  | _ => false

def CalCall.isDelete : CalCall → Bool
  | .delete _ => true
  | _ => false

/-- The four row-derived fields a create or update call pushes to the
calendar; a delete call carries no payload. -/
def CalCall.payloadOf : CalCall → Option EventPayload
  | .create p => some p
  | .update _ p => some p
  | .delete _ => none

/-- The body of one iteration of the row loop of `setUpCalendar_`
(lines 93–137), without failure: resolve `session[5]`; on null create the
event (then re-fetch it by the returned id, as the source does) else update
it in place; set `guestsCanSeeGuests`; write the event id into `session[5]`.
Returns (calendar after the iteration, updated row, traced call).
The inner `none` branch is unreachable: `insertEvent` appends an event
carrying the returned id, so the re-fetch always succeeds. -/
def createRow (cal : Calendar) (r : Row) : Calendar × Row × CalCall :=
  match (cal.insertEvent r.payload).1.getEventById (some (cal.insertEvent r.payload).2) with
  | some ev =>
      ((cal.insertEvent r.payload).1.mapEvent ev.id
          (fun e => { e with guestsCanSeeGuests := true }),
       { r with storedId := some ev.id }, .create r.payload)
  | none => ((cal.insertEvent r.payload).1, r, .create r.payload)

def stepRow (cal : Calendar) (r : Row) : Calendar × Row × CalCall :=
  match cal.getEventById r.storedId with
  | none => createRow cal r
  | some ev =>
      (cal.updateEvent ev.id r.payload, { r with storedId := some ev.id },
       .update ev.id r.payload)

inductive LoopOut where
  | ok (cal : Calendar) (rows : List Row) (trace : List CalCall)
  | err (cal : Calendar) (trace : List CalCall)
deriving DecidableEq, Repr

def LoopOut.cal : LoopOut → Calendar
  | .ok c _ _ => c
  | .err c _ => c

def LoopOut.trace : LoopOut → List CalCall
  | .ok _ _ tr => tr
  | .err _ tr => tr

/-- The row loop of `setUpCalendar_` under a failure schedule: `fail idx`
means the external create/update call for the row with (1-based) index
`idx` throws `TransientUnavailable`.  The exception propagates: later rows
are not processed, already-made calendar mutations persist. -/
def syncRows (fail : Nat → Bool) : Nat → Calendar → List Row → LoopOut
  | _, cal, [] => .ok cal [] []
  | idx, cal, r :: rs =>
      if fail idx then .err cal []
      else
        let s := stepRow cal r
        match syncRows fail (idx + 1) s.1 rs with
        | .ok cal2 rs2 tr => .ok cal2 (s.2.1 :: rs2) (s.2.2 :: tr)
        | .err cal2 tr => .err cal2 (s.2.2 :: tr)

/-- The all-succeed schedule. -/
def noFail : Nat → Bool := fun _ => false

/-- The calendar after processing a list of rows without failure. -/
def calsAfter (cal : Calendar) : List Row → Calendar
  | [] => cal
  | r :: rs => calsAfter (stepRow cal r).1 rs

/-- The calendar state just before the row with 0-based position `k` is
processed (no-failure run). -/
def calAt (cal : Calendar) (rows : List Row) (k : Nat) : Calendar :=
  calsAfter cal (rows.take k)

/-- The rows written back by a no-failure run. -/
def runRows (cal : Calendar) : List Row → List Row
  | [] => []
  | r :: rs => (stepRow cal r).2.1 :: runRows (stepRow cal r).1 rs

/-- The calls traced by a no-failure run. -/
def runTrace (cal : Calendar) : List Row → List CalCall
  | [] => []
  | r :: rs => (stepRow cal r).2.2 :: runTrace (stepRow cal r).1 rs

/-- Does the event id `i` resolve on calendar `c`? -/
def resolvable (c : Calendar) (i : Nat) : Bool :=
  (c.getEventById (some i)).isSome

/-- The world visible to `setUpCalendar_`: the `calendarId` script property
and the `CalendarApp` store of calendars. -/
structure CalWorld where
  calendarIdProp : Option Nat
  cals : List (Nat × Calendar)
  nextCalId : Nat
deriving DecidableEq, Repr

def CalWorld.getCalendarById (w : CalWorld) : Option Nat → Option Calendar
  | none => none
  | some i => (w.cals.find? (fun p => p.1 == i)).map Prod.snd

def emptyCalendar : Calendar := { events := [], nextEventId := 0 }

/-- Lines 77–89: when the stored `calendarId` is null or no longer resolves,
create a fresh calendar and store its id in the script properties; otherwise
reuse the existing calendar.  Returns (world, calendar id, calendar). -/
def CalWorld.acquire (w : CalWorld) : CalWorld × Nat × Calendar :=
  match w.calendarIdProp with
  | none =>
      ({ calendarIdProp := some w.nextCalId
       , cals := w.cals ++ [(w.nextCalId, emptyCalendar)]
       , nextCalId := w.nextCalId + 1 }, w.nextCalId, emptyCalendar)
  | some cid =>
      match w.getCalendarById (some cid) with
      | none =>
          ({ calendarIdProp := some w.nextCalId
           , cals := w.cals ++ [(w.nextCalId, emptyCalendar)]
           , nextCalId := w.nextCalId + 1 }, w.nextCalId, emptyCalendar)
      | some cal => (w, cid, cal)

/-- Store the (mutated) calendar back under its id. -/
def CalWorld.setCal (w : CalWorld) (cid : Nat) (cal : Calendar) : CalWorld :=
  { w with cals := w.cals.map (fun p => if p.1 == cid then (p.1, cal) else p) }

/-- Host invariant: every stored calendar id is below the fresh-id counter
(calendar ids are host-generated and never collide with a fresh one). -/
def CalWorld.wf (w : CalWorld) : Bool :=
  w.cals.all (fun p => p.1 < w.nextCalId)

def acquiredCal (w : CalWorld) : Calendar := w.acquire.2.2

/-- Result of one `setUpCalendar_` pass: the world (script property and
calendars) after the pass, the contents of the sheet range after the pass,
the traced calendar calls, and whether the pass aborted.  On abort the
sheet keeps its pre-pass values: `range.setValues(values)` (line 138) runs
only after the whole loop has succeeded. -/
structure PassOut where
  world : CalWorld
  table : List Row
  trace : List CalCall
  aborted : Bool
deriving DecidableEq, Repr

/-- `setUpCalendar_(values, range)` (lines 76–139) under a failure
schedule, on the data rows of the sheet (the loop starts at `i = 1`,
skipping the header row, which is written back unchanged). -/
def setUpCalendar (fail : Nat → Bool) (w : CalWorld) (table : List Row) : PassOut :=
  let a := w.acquire
  match syncRows fail 1 a.2.2 table with
  | .ok cal2 rows2 tr =>
      { world := a.1.setCal a.2.1 cal2, table := rows2, trace := tr, aborted := false }
  | .err cal2 tr =>
      { world := a.1.setCal a.2.1 cal2, table := table, trace := tr, aborted := true }

/-- Two consecutive no-failure passes with the sheet untouched in between:
the second pass runs on the world and sheet produced by the first. -/
def pass2 (w : CalWorld) (table : List Row) : PassOut :=
  setUpCalendar noFail (setUpCalendar noFail w table).world
    (setUpCalendar noFail w table).table

/-!
Grouping sub-algorithm of `setUpForm_` (lines 163–178 build `schedule`,
lines 215–221 walk it).  The source groups into a nested plain JS object
`schedule[day][time]`, pushing each session title; it then iterates
`Object.keys` at both levels.  For the localized day/time strings produced
by `toLocaleDateString('en-GB')` / `toLocaleTimeString('en-GB')` (which are
never array-index-like), JS object key order is insertion order, so the
object is modelled as an insertion-ordered association list.  A `FormRow`
is a row after localization: (title, day string, time string).
-/

structure FormRow where
  title : String
  day : String
  time : String
deriving DecidableEq, Repr

abbrev TimeGroups := List (String × List String)

abbrev Schedule := List (String × TimeGroups)

/-- `if (!schedule[day][time]) schedule[day][time] = [];
schedule[day][time].push(session[0]);` -/
def addTime (ts : TimeGroups) (time title : String) : TimeGroups :=
  if ts.any (fun p => p.1 == time) then
    ts.map (fun p => if p.1 == time then (p.1, p.2 ++ [title]) else p)
  else ts ++ [(time, [title])]

/-- `if (!schedule[day]) schedule[day] = {};` followed by the inner-level
insertion. -/
def addDay (s : Schedule) (day time title : String) : Schedule :=
  if s.any (fun p => p.1 == day) then
    s.map (fun p => if p.1 == day then (p.1, addTime p.2 time title) else p)
  else s ++ [(day, addTime [] time title)]

/-- The grouping loop of `setUpForm_` (lines 165–178). -/
def buildSchedule (rows : List FormRow) : Schedule :=
  rows.foldl (fun s r => addDay s r.day r.time r.title) []

/-- The ordered (day, time) → titles groups in the order the form items are
created (lines 215–221: days in object order, times in object order within
each day). -/
def formGroups (s : Schedule) : List ((String × String) × List String) :=
  s.flatMap (fun p => p.2.map (fun q => ((p.1, q.1), q.2)))

/-- Keep the first occurrence of each element, in first-seen order. -/
def seenOrder [BEq α] (l : List α) : List α :=
  l.foldl (fun acc x => if acc.any (fun y => y == x) then acc else acc ++ [x]) []

/-- Modelled from the spec: grouping "by TimeSlot key in first-seen order"
read flat — groups keyed by the (day, time) pair, ordered by the first
occurrence of the pair, titles in row order.  Used to compare against what
the source actually produces. -/
def specGroupFlat (rows : List FormRow) : List ((String × String) × List String) :=
  (seenOrder (rows.map (fun r => (r.day, r.time)))).map (fun k =>
    (k, (rows.filter (fun r => r.day == k.1 && r.time == k.2)).map (fun r => r.title)))

def daysOf (rows : List FormRow) : List String :=
  seenOrder (rows.map (fun r => r.day))

def timesOf (rows : List FormRow) (d : String) : List String :=
  seenOrder ((rows.filter (fun r => r.day == d)).map (fun r => r.time))

def titlesFor (rows : List FormRow) (d t : String) : List String :=
  (rows.filter (fun r => r.day == d && r.time == t)).map (fun r => r.title)

/-- The nested two-level grouping, written from its specification: days in
first-seen order; within a day, times in first-seen order among that day's
rows; within a group, titles in row order. -/
def specNested (rows : List FormRow) : Schedule :=
  (daysOf rows).map (fun d =>
    (d, (timesOf rows d).map (fun t => (t, titlesFor rows d t))))

/-!
`openForm_` (lines 295–305) and `openCalendar_` (lines 307–316): read the
stored id from the script properties; when it is null, show a blocking
alert and return; otherwise open the URL.  Observed effects are the alerts
shown and the URLs opened, in order.  `FormApp.openById`'s edit URL for a
given form id is host state, abstracted as a function argument.
-/

def openFormAction (formIdProp : Option Nat) (editUrl : Nat → String) :
    List String × List String :=
  match formIdProp with
  | none => (["No registration form has been set up yet."], [])
  | some fid => ([], [editUrl fid])

def openCalendarAction (calIdProp : Option Nat) : List String × List String :=
  match calIdProp with
  | none => (["No calendar has been set up yet."], [])
  | some cid => ([], ["https://calendar.google.com/calendar/?cid=" ++ toString cid])

/-!
Timesheet script (second half of the source file).  Spreadsheet cells hold
JS values; the script compares them with `==` against string literals,
adds them with `+` and multiplies them with `*`, so cells are modelled as a
JS value (string, number as an integer, or NaN) with the JS coercion rules
for exactly those three operators.
-/

inductive JSVal where
  | str (s : String)
  | num (n : Int)
  | nan
deriving DecidableEq, Repr

def JSVal.toStr : JSVal → String
  | .str s => s
  | .num n => toString n
  | .nan => "NaN"

/-- JS `ToNumber` on a string: empty string is 0, numeric strings parse,
anything else is NaN (`none`). -/
def strToNumber (s : String) : Option Int :=
  if s = "" then some 0 else s.toInt?

def JSVal.toNumber : JSVal → Option Int
  | .str s => strToNumber s
  | .num n => some n
  | .nan => none

/-- JS `+`: string concatenation when either side is a string, numeric
addition otherwise (NaN absorbs). -/
def jsAdd : JSVal → JSVal → JSVal
  | .str s, b => .str (s ++ b.toStr)
  | a, .str s => .str (a.toStr ++ s)
  | .num a, .num b => .num (a + b)
  | _, _ => .nan

/-- JS `*`: both sides coerced with `ToNumber`; NaN when either fails. -/
def jsMul (a b : JSVal) : JSVal :=
  match a.toNumber, b.toNumber with
  | some x, some y => .num (x * y)
  | _, _ => .nan

/-- JS `==` of a cell value against a string literal: strings compare
directly, a number compares against `ToNumber` of the literal, NaN is
equal to nothing. -/
def jsEqStr (v : JSVal) (lit : String) : Bool :=
  match v with
  | .str s => s == lit
  | .num n =>
      match strToNumber lit with
      | some m => n == m
      | none => false
  | .nan => false

/-- Update position `i` of a list in place; out of range is a no-op. -/
def listModify (l : List α) (i : Nat) (f : α → α) : List α :=
  match l, i with
  | [], _ => []
  | x :: xs, 0 => f x :: xs
  | x :: xs, n + 1 => x :: listModify xs n f

/-- A sheet as its rectangular cell grid; `cells[r][c]` is 0-based, the
script's `getRange(i, j)` is 1-based. -/
structure Sheet where
  cells : List (List JSVal)
deriving DecidableEq, Repr

def Sheet.lastRow (sh : Sheet) : Nat := sh.cells.length

def Sheet.lastCol (sh : Sheet) : Nat := (sh.cells.headD []).length

/-- `getRange(r, c).getValue()`; an untouched/out-of-range cell reads as
the empty string. -/
def Sheet.getValue (sh : Sheet) (r c : Nat) : JSVal :=
  (sh.cells.getD (r - 1) []).getD (c - 1) (.str "")

/-- `getRange(r, c).setValue(v)`. -/
def Sheet.setValue (sh : Sheet) (r c : Nat) (v : JSVal) : Sheet :=
  { cells := listModify sh.cells (r - 1) (fun row => listModify row (c - 1) (fun _ => v)) }

/-- `insertColumnAfter(c)`: a new empty column after 1-based column `c`. -/
def Sheet.insertColumnAfter (sh : Sheet) (c : Nat) : Sheet :=
  { cells := sh.cells.map (fun row => row.take c ++ [JSVal.str ""] ++ row.drop c) }

/-- Content rectangularity: every row spans exactly the sheet's last
column (what `getLastColumn` reports). -/
def Sheet.rect (sh : Sheet) : Bool :=
  sh.cells.all (fun row => row.length == sh.lastCol)

def HRS_START : Nat := 4
def HRS_END : Nat := 8
def HRLY_PAY_COLUMN : Nat := 9
def APPROVAL_COLUMN : Nat := 11

/-!
`sendEmails` (lines 355–387).  The trace records, per sent mail, the row
index of the loop iteration that sent it together with the recipient cell,
subject and message.  `var message` / `var subject` are function-scoped in
JS: when the approval cell matches none of the three known values the code
falls through to `MailApp.sendEmail(email, subject, message)` with whatever
those variables hold from an earlier iteration (`none` models them still
undefined).
-/

structure SendState where
  sheet : Sheet
  message : Option String
  subject : Option String
  emails : List (Nat × JSVal × Option String × Option String)
deriving DecidableEq, Repr

/-- One iteration of the `sendEmails` loop at row `i` (the `email` and
`dropdownValue` reads are pure and inlined).  A row already NOTIFIED is
skipped; APPROVED / NOT APPROVED set subject and message and send;
IN PROGRESS `continue`s; any other approval value falls through to
`MailApp.sendEmail(email, subject, message)` with whatever the
function-scoped `subject`/`message` variables hold, and then marks the
row NOTIFIED. -/
def sendStep (lastCol : Nat) (st : SendState) (i : Nat) : SendState :=
  if jsEqStr (st.sheet.getValue i lastCol) "NOTIFIED" then st
  else if jsEqStr (st.sheet.getValue i APPROVAL_COLUMN) "APPROVED" then
    { sheet := st.sheet.setValue i lastCol (JSVal.str "NOTIFIED")
    , message := some "Your timesheet has been approved"
    , subject := some "TimeSheet Approval"
    , emails := st.emails ++
        [(i, st.sheet.getValue i 3, some "TimeSheet Approval",
          some "Your timesheet has been approved")] }
  else if jsEqStr (st.sheet.getValue i APPROVAL_COLUMN) "NOT APPROVED" then
    { sheet := st.sheet.setValue i lastCol (JSVal.str "NOTIFIED")
    , message := some "NOT APPROVED"
    , subject := some "TimeSheet not Approved"
    , emails := st.emails ++
        [(i, st.sheet.getValue i 3, some "TimeSheet not Approved", some "NOT APPROVED")] }
  else if jsEqStr (st.sheet.getValue i APPROVAL_COLUMN) "IN PROGRESS" then st
  else
    { sheet := st.sheet.setValue i lastCol (JSVal.str "NOTIFIED")
    , message := st.message
    , subject := st.subject
    , emails := st.emails ++ [(i, st.sheet.getValue i 3, st.subject, st.message)] }

def sendEmails (sh : Sheet) : SendState :=
  (List.range' 2 (sh.lastRow - 1)).foldl (sendStep sh.lastCol)
    { sheet := sh, message := none, subject := none, emails := [] }

/-- Is row `i` one for which `sendEmails` sends a mail and writes NOTIFIED:
not already NOTIFIED, and the approval cell not exactly IN PROGRESS (an
APPROVED / NOT APPROVED / unrecognized value all reach the send). -/
def rowEmailed (sh : Sheet) (lastCol i : Nat) : Bool :=
  !(jsEqStr (sh.getValue i lastCol) "NOTIFIED") &&
  (jsEqStr (sh.getValue i APPROVAL_COLUMN) "APPROVED" ||
   jsEqStr (sh.getValue i APPROVAL_COLUMN) "NOT APPROVED" ||
   !(jsEqStr (sh.getValue i APPROVAL_COLUMN) "IN PROGRESS"))

/-!
`calculatePay` (lines 434–463): append a column, title it WEEKLY PAY, and
for each data row write (sum of hour cells, columns 4–8) * (rate cell,
column 9) into the new column.
-/

/-- The inner `numHrs` accumulation: `numHrs = numHrs + numHrsCell.getValue()`
over columns `HRS_START .. HRS_END`, starting from the number 0. -/
def hoursSum (sh : Sheet) (i : Nat) : JSVal :=
  (List.range' HRS_START (HRS_END - HRS_START + 1)).foldl
    (fun acc j => jsAdd acc (sh.getValue i j)) (JSVal.num 0)

/-- One iteration of the `calculatePay` loop at row `i`. -/
def payStep (lastCol : Nat) (sh : Sheet) (i : Nat) : Sheet :=
  sh.setValue i (lastCol + 1) (jsMul (hoursSum sh i) (sh.getValue i HRLY_PAY_COLUMN))

def calculatePay (sh : Sheet) : Sheet :=
  let lastCol := sh.lastCol
  let lastRow := sh.lastRow
  let sh1 := (sh.insertColumnAfter lastCol).setValue 1 (lastCol + 1) (JSVal.str "WEEKLY PAY")
  (List.range' 2 (lastRow - 1)).foldl (payStep lastCol) sh1


/-! ### Lemmas about event lookup and the row step -/

theorem find?_append_singleton (l : List α) (p : α → Bool) (ev : α) (h : p ev = true) :
    ∃ res, ((l ++ [ev]).find? p) = some res ∧ p res = true := by
  induction l with
  | nil => exact ⟨ev, by simp [List.find?, h], h⟩
  | cons x xs ih =>
      cases hx : p x with
      | true => exact ⟨x, by simp [List.find?, hx], hx⟩
      | false =>
          obtain ⟨res, h1, h2⟩ := ih
          exact ⟨res, by simp [List.find?, hx, h1], h2⟩

theorem getEventById_eq_some_id (c : Calendar) (o : Option Nat) (ev : CalEvent)
    (h : c.getEventById o = some ev) : o = some ev.id := by
  cases o with
  | none => simp [Calendar.getEventById] at h
  | some i =>
      simp only [Calendar.getEventById] at h
      have := List.find?_some h
      simp only [beq_iff_eq] at this
      rw [this]

theorem find?_append_of_isSome (l1 l2 : List α) (p : α → Bool)
    (h : (l1.find? p).isSome = true) : ((l1 ++ l2).find? p).isSome = true := by
  induction l1 with
  | nil => simp [List.find?] at h
  | cons x xs ih =>
      cases hx : p x with
      | true => simp [List.find?, hx]
      | false =>
          simp only [List.find?, hx] at h
          simp only [List.cons_append, List.find?, hx]
          exact ih h

theorem find?_id_map_isSome (l : List CalEvent) (j i : Nat) (f : CalEvent → CalEvent)
    (hf : ∀ e, (f e).id = e.id) :
    ((l.map (fun e => if e.id == j then f e else e)).find? (fun e => e.id == i)).isSome
      = (l.find? (fun e => e.id == i)).isSome := by
  rw [List.find?_map]
  have hfun : ((fun e => e.id == i) ∘ fun (e : CalEvent) => if e.id == j then f e else e)
      = (fun e => e.id == i) := by
    funext e
    cases hxj : (e.id == j) with
    | true => simp [Function.comp, hxj, hf]
    | false => simp [Function.comp, hxj]
  rw [hfun]
  cases l.find? (fun e => e.id == i) <;> rfl

theorem resolvable_mapEvent (c : Calendar) (j i : Nat) (f : CalEvent → CalEvent)
    (hf : ∀ e, (f e).id = e.id) :
    resolvable (c.mapEvent j f) i = resolvable c i := by
  simp only [resolvable, Calendar.getEventById, Calendar.mapEvent]
  exact find?_id_map_isSome c.events j i f hf

theorem resolvable_insert (c : Calendar) (p : EventPayload) (i : Nat)
    (h : resolvable c i = true) : resolvable (c.insertEvent p).1 i = true := by
  simp only [resolvable, Calendar.getEventById, Calendar.insertEvent] at h ⊢
  exact find?_append_of_isSome _ _ _ h

theorem resolvable_updateEvent (c : Calendar) (j : Nat) (p : EventPayload) (i : Nat)
    (h : resolvable c i = true) : resolvable (c.updateEvent j p) i = true := by
  unfold Calendar.updateEvent
  rw [resolvable_mapEvent c j i
    (fun e => { e with title := p.summary, start := p.start, endTime := p.endTime
                     , location := p.location, guestsCanSeeGuests := true })
    (fun e => rfl)]
  exact h

theorem createRow_parts (cal : Calendar) (r : Row) :
    (createRow cal r).2.2 = CalCall.create r.payload ∧
    (createRow cal r).2.1 = { r with storedId := some cal.nextEventId } ∧
    resolvable (createRow cal r).1 cal.nextEventId = true := by
  obtain ⟨res, hres, hp⟩ := find?_append_singleton cal.events
    (fun e => e.id == cal.nextEventId)
    { id := cal.nextEventId, title := r.payload.summary, start := r.payload.start
    , endTime := r.payload.endTime, location := r.payload.location
    , guestsCanSeeGuests := false } (by simp)
  have hid2 : res.id = cal.nextEventId := by simpa using hp
  have hget : (cal.insertEvent r.payload).1.getEventById (some (cal.insertEvent r.payload).2)
      = some res := by
    simp only [Calendar.insertEvent, Calendar.getEventById]
    exact hres
  unfold createRow
  rw [hget]
  refine ⟨rfl, by simp only [hid2], ?_⟩
  rw [resolvable_mapEvent _ _ _
    (fun e => { e with guestsCanSeeGuests := true }) (fun e => rfl)]
  simp only [resolvable, Calendar.insertEvent, Calendar.getEventById]
  rw [hres]
  rfl

theorem stepRow_of_none (cal : Calendar) (r : Row)
    (h : cal.getEventById r.storedId = none) :
    (stepRow cal r).2.2 = CalCall.create r.payload ∧
    (stepRow cal r).2.1 = { r with storedId := some cal.nextEventId } ∧
    resolvable (stepRow cal r).1 cal.nextEventId = true := by
  have : stepRow cal r = createRow cal r := by
    unfold stepRow
    rw [h]
  rw [this]
  exact createRow_parts cal r

theorem stepRow_of_some (cal : Calendar) (r : Row) (ev : CalEvent)
    (h : cal.getEventById r.storedId = some ev) :
    (stepRow cal r).1 = cal.updateEvent ev.id r.payload ∧
    (stepRow cal r).2.1 = { r with storedId := some ev.id } ∧
    (stepRow cal r).2.2 = CalCall.update ev.id r.payload := by
  have : stepRow cal r =
      (cal.updateEvent ev.id r.payload, { r with storedId := some ev.id },
       .update ev.id r.payload) := by
    unfold stepRow
    rw [h]
  rw [this]
  exact ⟨rfl, rfl, rfl⟩

theorem stepRow_resolvable (cal : Calendar) (r : Row) (i : Nat)
    (h : resolvable cal i = true) : resolvable (stepRow cal r).1 i = true := by
  cases hres : cal.getEventById r.storedId with
  | none =>
      have hs : stepRow cal r = createRow cal r := by
        unfold stepRow
        rw [hres]
      rw [hs]
      unfold createRow
      split
      · rw [resolvable_mapEvent _ _ _
          (fun e => { e with guestsCanSeeGuests := true }) (fun e => rfl)]
        exact resolvable_insert cal r.payload i h
      · exact resolvable_insert cal r.payload i h
  | some ev =>
      rw [(stepRow_of_some cal r ev hres).1]
      exact resolvable_updateEvent cal ev.id r.payload i h

theorem stepRow_not_delete (cal : Calendar) (r : Row) :
    CalCall.isDelete (stepRow cal r).2.2 = false := by
  cases hres : cal.getEventById r.storedId with
  | none =>
      have hs : stepRow cal r = createRow cal r := by
        unfold stepRow
        rw [hres]
      rw [hs]
      unfold createRow
      split <;> rfl
  | some ev => rw [(stepRow_of_some cal r ev hres).2.2]; rfl

theorem stepRow_payload (cal : Calendar) (r : Row) :
    (stepRow cal r).2.1.payload = r.payload := by
  cases hres : cal.getEventById r.storedId with
  | none => rw [(stepRow_of_none cal r hres).2.1]; rfl
  | some ev => rw [(stepRow_of_some cal r ev hres).2.1]; rfl

theorem stepRow_payloadOf (cal : Calendar) (r : Row) :
    ((stepRow cal r).2.2).payloadOf = some r.payload := by
  cases hres : cal.getEventById r.storedId with
  | none => rw [(stepRow_of_none cal r hres).1]; rfl
  | some ev => rw [(stepRow_of_some cal r ev hres).2.2]; rfl

/-! ### The no-failure run and its per-row characterization -/

theorem syncRows_noFail (idx : Nat) (cal : Calendar) (rows : List Row) :
    syncRows noFail idx cal rows
      = .ok (calsAfter cal rows) (runRows cal rows) (runTrace cal rows) := by
  induction rows generalizing idx cal with
  | nil => rfl
  | cons r rs ih =>
      simp only [syncRows, noFail, Bool.false_eq_true, if_false, ih,
        calsAfter, runRows, runTrace]

theorem setUpCalendar_noFail (w : CalWorld) (table : List Row) :
    setUpCalendar noFail w table =
      { world := w.acquire.1.setCal w.acquire.2.1 (calsAfter (acquiredCal w) table)
      , table := runRows (acquiredCal w) table
      , trace := runTrace (acquiredCal w) table
      , aborted := false } := by
  simp only [setUpCalendar, syncRows_noFail, acquiredCal]

theorem runRows_length (cal : Calendar) (rows : List Row) :
    (runRows cal rows).length = rows.length := by
  induction rows generalizing cal with
  | nil => rfl
  | cons r rs ih => simp [runRows, ih]

theorem runTrace_length (cal : Calendar) (rows : List Row) :
    (runTrace cal rows).length = rows.length := by
  induction rows generalizing cal with
  | nil => rfl
  | cons r rs ih => simp [runTrace, ih]

theorem calAt_zero (cal : Calendar) (rows : List Row) : calAt cal rows 0 = cal := rfl

theorem calAt_succ_cons (cal : Calendar) (r : Row) (rs : List Row) (k : Nat) :
    calAt cal (r :: rs) (k + 1) = calAt (stepRow cal r).1 rs k := by
  simp [calAt, List.take_succ_cons, calsAfter]

theorem runTrace_getElem? (cal : Calendar) (rows : List Row) (k : Nat) :
    (runTrace cal rows)[k]? = (rows[k]?).map (fun r => (stepRow (calAt cal rows k) r).2.2) := by
  induction rows generalizing cal k with
  | nil => simp [runTrace]
  | cons r rs ih =>
      cases k with
      | zero => simp [runTrace, calAt_zero]
      | succ k => simp [runTrace, ih, calAt_succ_cons]

theorem runRows_getElem? (cal : Calendar) (rows : List Row) (k : Nat) :
    (runRows cal rows)[k]? = (rows[k]?).map (fun r => (stepRow (calAt cal rows k) r).2.1) := by
  induction rows generalizing cal k with
  | nil => simp [runRows]
  | cons r rs ih =>
      cases k with
      | zero => simp [runRows, calAt_zero]
      | succ k => simp [runRows, ih, calAt_succ_cons]

theorem calsAfter_resolvable (cal : Calendar) (rows : List Row) (i : Nat)
    (h : resolvable cal i = true) : resolvable (calsAfter cal rows) i = true := by
  induction rows generalizing cal with
  | nil => exact h
  | cons r rs ih => exact ih _ (stepRow_resolvable cal r i h)

theorem runRows_resolvable (cal : Calendar) (rows : List Row) :
    ∀ r1 ∈ runRows cal rows,
      ∃ i, r1.storedId = some i ∧ resolvable (calsAfter cal rows) i = true := by
  induction rows generalizing cal with
  | nil => simp [runRows]
  | cons r rs ih =>
      intro r1 hr1
      simp only [runRows, List.mem_cons] at hr1
      rcases hr1 with h | h
      · subst h
        cases hres : cal.getEventById r.storedId with
        | none =>
            refine ⟨cal.nextEventId, ?_, ?_⟩
            · rw [(stepRow_of_none cal r hres).2.1]
            · exact calsAfter_resolvable _ rs _ (stepRow_of_none cal r hres).2.2
        | some ev =>
            refine ⟨ev.id, ?_, ?_⟩
            · rw [(stepRow_of_some cal r ev hres).2.1]
            · have h0 : resolvable cal ev.id = true := by
                have ho := getEventById_eq_some_id cal r.storedId ev hres
                rw [ho] at hres
                simp [resolvable, hres]
              exact calsAfter_resolvable _ rs _ (stepRow_resolvable cal r ev.id h0)
      · exact ih _ _ h

theorem runRows_payloads (cal : Calendar) (rows : List Row) :
    (runRows cal rows).map Row.payload = rows.map Row.payload := by
  induction rows generalizing cal with
  | nil => rfl
  | cons r rs ih => simp [runRows, ih, stepRow_payload]

theorem runTrace_payloads (cal : Calendar) (rows : List Row) :
    (runTrace cal rows).map CalCall.payloadOf = rows.map (fun r => some r.payload) := by
  induction rows generalizing cal with
  | nil => rfl
  | cons r rs ih => simp [runTrace, ih, stepRow_payloadOf]

theorem runTrace_all_updates (cal : Calendar) (rows : List Row)
    (h : ∀ r ∈ rows, ∃ i, r.storedId = some i ∧ resolvable cal i = true) :
    (runTrace cal rows).all CalCall.isUpdate = true := by
  induction rows generalizing cal with
  | nil => rfl
  | cons r rs ih =>
      obtain ⟨i, hsi, hres⟩ := h r (List.mem_cons_self r rs)
      have hsome : (cal.getEventById r.storedId).isSome = true := by
        rw [hsi]
        exact hres
      obtain ⟨ev, hev⟩ := Option.isSome_iff_exists.mp hsome
      simp only [runTrace, List.all_cons, (stepRow_of_some cal r ev hev).2.2,
        CalCall.isUpdate, Bool.true_and]
      refine ih _ ?_
      intro r2 h2
      obtain ⟨j, hj1, hj2⟩ := h r2 (List.mem_cons_of_mem r h2)
      exact ⟨j, hj1, stepRow_resolvable cal r j hj2⟩

theorem all_updates_no_creates (tr : List CalCall)
    (h : tr.all CalCall.isUpdate = true) : tr.countP CalCall.isCreate = 0 := by
  rw [List.countP_eq_zero]
  intro c hc
  have := (List.all_eq_true.mp h) c hc
  cases c with
  | create p => simp [CalCall.isUpdate] at this
  | update j p => simp [CalCall.isCreate]
  | delete j => simp [CalCall.isUpdate] at this

/-! ### Lemmas about the calendar world: acquisition and write-back -/

theorem find?_append_of_none (l1 l2 : List α) (p : α → Bool)
    (h : ∀ x ∈ l1, p x = false) : ((l1 ++ l2).find? p) = l2.find? p := by
  induction l1 with
  | nil => rfl
  | cons x xs ih =>
      have hx := h x (List.mem_cons_self x xs)
      simp only [List.cons_append, List.find?, hx]
      exact ih (fun y hy => h y (List.mem_cons_of_mem x hy))

theorem setCal_calendarIdProp (w : CalWorld) (cid : Nat) (cal : Calendar) :
    (w.setCal cid cal).calendarIdProp = w.calendarIdProp := rfl

theorem find?_key_map_set (l : List (Nat × Calendar)) (cid : Nat) (cal : Calendar)
    (h : (l.find? (fun p => p.1 == cid)).isSome = true) :
    Option.map Prod.snd ((l.map (fun p => if p.1 == cid then (p.1, cal) else p)).find?
      (fun p => p.1 == cid)) = some cal := by
  induction l with
  | nil => simp [List.find?] at h
  | cons x xs ih =>
      cases hx : (x.1 == cid) with
      | true =>
          simp only [List.map_cons, hx, if_true]
          rw [List.find?_cons_of_pos _ (by simpa using hx)]
          rfl
      | false =>
          simp only [List.find?, hx] at h
          simp only [List.map_cons, hx, if_false, Bool.false_eq_true]
          rw [List.find?_cons_of_neg _ (by simp [hx])]
          exact ih h

theorem setCal_lookup_self (w : CalWorld) (cid : Nat) (cal : Calendar)
    (h : (w.getCalendarById (some cid)).isSome = true) :
    (w.setCal cid cal).getCalendarById (some cid) = some cal := by
  simp only [CalWorld.getCalendarById, CalWorld.setCal] at h ⊢
  cases hfind : (w.cals.find? (fun p => p.1 == cid)) with
  | none => rw [hfind] at h; simp at h
  | some x => exact find?_key_map_set w.cals cid cal (by rw [hfind]; rfl)

theorem acquire_spec (w : CalWorld) (hwf : w.wf = true) :
    (w.acquire.1).calendarIdProp = some w.acquire.2.1 ∧
    (w.acquire.1).getCalendarById (some w.acquire.2.1) = some w.acquire.2.2 := by
  have hfresh : ∀ x ∈ w.cals, ((fun p => p.1 == w.nextCalId) x) = false := by
    intro x hx
    have := (List.all_eq_true.mp hwf) x hx
    simp only [decide_eq_true_eq] at this
    simp [Nat.ne_of_lt this]
  have hcreate : ∀ w2 : CalWorld,
      w2 = { calendarIdProp := some w.nextCalId
           , cals := w.cals ++ [(w.nextCalId, emptyCalendar)]
           , nextCalId := w.nextCalId + 1 } →
      w2.calendarIdProp = some w.nextCalId ∧
      w2.getCalendarById (some w.nextCalId) = some emptyCalendar := by
    intro w2 hw2
    subst hw2
    refine ⟨rfl, ?_⟩
    simp only [CalWorld.getCalendarById]
    rw [find?_append_of_none _ _ _ hfresh]
    simp [List.find?]
  cases hp : w.calendarIdProp with
  | none =>
      have ha : w.acquire =
          ({ calendarIdProp := some w.nextCalId
           , cals := w.cals ++ [(w.nextCalId, emptyCalendar)]
           , nextCalId := w.nextCalId + 1 }, w.nextCalId, emptyCalendar) := by
        unfold CalWorld.acquire
        rw [hp]
      rw [ha]
      exact hcreate _ rfl
  | some cid =>
      cases hl : w.getCalendarById (some cid) with
      | none =>
          have ha : w.acquire =
              ({ calendarIdProp := some w.nextCalId
               , cals := w.cals ++ [(w.nextCalId, emptyCalendar)]
               , nextCalId := w.nextCalId + 1 }, w.nextCalId, emptyCalendar) := by
            unfold CalWorld.acquire
            simp only [hp]
            simp only [hl]
          rw [ha]
          exact hcreate _ rfl
      | some cal =>
          have ha : w.acquire = (w, cid, cal) := by
            unfold CalWorld.acquire
            simp only [hp]
            simp only [hl]
          rw [ha]
          exact ⟨hp, hl⟩

theorem acquiredCal_eq_of (w2 : CalWorld) (cid : Nat) (cal : Calendar)
    (h1 : w2.calendarIdProp = some cid) (h2 : w2.getCalendarById (some cid) = some cal) :
    acquiredCal w2 = cal := by
  unfold acquiredCal CalWorld.acquire
  simp only [h1]
  simp only [h2]

theorem acquiredCal_after_pass (w : CalWorld) (table : List Row) (hwf : w.wf = true) :
    acquiredCal ((setUpCalendar noFail w table).world) = calsAfter (acquiredCal w) table := by
  obtain ⟨hprop, hlook⟩ := acquire_spec w hwf
  have hW : (setUpCalendar noFail w table).world
      = w.acquire.1.setCal w.acquire.2.1 (calsAfter (acquiredCal w) table) := by
    rw [setUpCalendar_noFail]
  rw [hW]
  refine acquiredCal_eq_of _ w.acquire.2.1 _ ?_ ?_
  · rw [setCal_calendarIdProp]
    exact hprop
  · exact setCal_lookup_self _ _ _ (by rw [hlook]; rfl)

/-! ### No call is ever a delete -/

theorem syncRows_trace_no_delete (fail : Nat → Bool) (idx : Nat) (cal : Calendar)
    (rows : List Row) :
    ((syncRows fail idx cal rows).trace).countP CalCall.isDelete = 0 := by
  induction rows generalizing idx cal with
  | nil => rfl
  | cons r rs ih =>
      simp only [syncRows]
      cases hf : fail idx with
      | true => rfl
      | false =>
          simp only [if_false, Bool.false_eq_true]
          cases hrec : syncRows fail (idx + 1) (stepRow cal r).1 rs with
          | ok cal2 rs2 tr =>
              have := ih (idx + 1) (stepRow cal r).1
              rw [hrec] at this
              simp only [LoopOut.trace] at this ⊢
              rw [List.countP_cons_of_neg _ _ (by simp [stepRow_not_delete cal r])]
              exact this
          | err cal2 tr =>
              have := ih (idx + 1) (stepRow cal r).1
              rw [hrec] at this
              simp only [LoopOut.trace] at this ⊢
              rw [List.countP_cons_of_neg _ _ (by simp [stepRow_not_delete cal r])]
              exact this

theorem setUpCalendar_trace (fail : Nat → Bool) (w : CalWorld) (table : List Row) :
    (setUpCalendar fail w table).trace = (syncRows fail 1 (acquiredCal w) table).trace := by
  cases h : syncRows fail 1 w.acquire.2.2 table with
  | ok c rs tr => simp [setUpCalendar, acquiredCal, h, LoopOut.trace]
  | err c tr => simp [setUpCalendar, acquiredCal, h, LoopOut.trace]

theorem syncRows_cal_resolvable (fail : Nat → Bool) (idx : Nat) (cal : Calendar)
    (rows : List Row) (i : Nat) (h : resolvable cal i = true) :
    resolvable ((syncRows fail idx cal rows).cal) i = true := by
  induction rows generalizing idx cal with
  | nil => exact h
  | cons r rs ih =>
      simp only [syncRows]
      cases hf : fail idx with
      | true => exact h
      | false =>
          simp only [if_false, Bool.false_eq_true]
          cases hrec : syncRows fail (idx + 1) (stepRow cal r).1 rs with
          | ok cal2 rs2 tr =>
              have := ih (idx + 1) (stepRow cal r).1 (stepRow_resolvable cal r i h)
              rw [hrec] at this
              exact this
          | err cal2 tr =>
              have := ih (idx + 1) (stepRow cal r).1 (stepRow_resolvable cal r i h)
              rw [hrec] at this
              exact this

/-! ### Sample data used by witnesses and counterexamples -/

def w0 : CalWorld := { calendarIdProp := none, cals := [], nextCalId := 0 }

def d0 : JSDate := { day := 1, hours := 0, minutes := 0 }

def rowA : Row :=
  { title := "Talk A", date := d0, startTime := { day := 1, hours := 9, minutes := 0 }
  , endTime := { day := 1, hours := 10, minutes := 0 }, location := "Room 1"
  , storedId := none }

def rowB : Row :=
  { title := "Talk B", date := d0, startTime := { day := 1, hours := 11, minutes := 0 }
  , endTime := { day := 1, hours := 12, minutes := 0 }, location := "Room 2"
  , storedId := none }

def calE : Calendar :=
  { events := [{ id := 0, title := "Old", start := d0, endTime := d0, location := "L"
               , guestsCanSeeGuests := false }]
  , nextEventId := 1 }

def wE : CalWorld := { calendarIdProp := some 0, cals := [(0, calE)], nextCalId := 1 }

def rowE : Row :=
  { title := "New", date := d0, startTime := d0, endTime := d0, location := "Loc"
  , storedId := some 0 }

def evE : CalEvent :=
  { id := 0, title := "Old", start := d0, endTime := d0, location := "L"
  , guestsCanSeeGuests := false }

/-- The schedule that makes the external call for data row 2 throw. -/
def fail2 : Nat → Bool := fun i => i == 2

/-- The update-call payloads of a trace, in order. -/
def updatePayloads (tr : List CalCall) : List EventPayload :=
  tr.filterMap (fun c =>
    match c with
    | .update _ p => some p
    | _ => none)

/-! ### Claims C1 to C5 -/

/-- C1: for every data row whose stored event id is null/empty or does not
resolve to an existing event (on the calendar state at the moment the row
is processed), the pass traces exactly one call for that row, a `create`
with the payload derived from that row, and writes the id returned by the
create back into that row's id cell.  The first conjunct (one trace entry
per row, in row order) makes "exactly once" precise. -/
theorem c1_create_on_unresolved (w : CalWorld) (table : List Row) (k : Nat) (r : Row)
    (hr : table[k]? = some r)
    (hres : (calAt (acquiredCal w) table k).getEventById r.storedId = none) :
    (setUpCalendar noFail w table).trace.length = table.length ∧
    (setUpCalendar noFail w table).trace[k]? = some (CalCall.create r.payload) ∧
    (setUpCalendar noFail w table).table[k]? =
      some { r with storedId := some (calAt (acquiredCal w) table k).nextEventId } := by
  rw [setUpCalendar_noFail]
  refine ⟨runTrace_length _ _, ?_, ?_⟩
  · show (runTrace (acquiredCal w) table)[k]? = some (CalCall.create r.payload)
    rw [runTrace_getElem?, hr, Option.map_some']
    rw [(stepRow_of_none (calAt (acquiredCal w) table k) r hres).1]
  · show (runRows (acquiredCal w) table)[k]? =
      some { r with storedId := some (calAt (acquiredCal w) table k).nextEventId }
    rw [runRows_getElem?, hr, Option.map_some']
    rw [(stepRow_of_none (calAt (acquiredCal w) table k) r hres).2.1]

theorem c1_create_on_unresolved_witness :
    (setUpCalendar noFail w0 [rowA]).trace[0]? = some (CalCall.create rowA.payload) :=
  (c1_create_on_unresolved w0 [rowA] 0 rowA (by rfl) (by decide)).2.1

/-- C2: for every data row whose stored event id resolves to an existing
event (state at the moment the row is processed), the pass traces exactly
one call for that row, an `update` of that event with the payload derived
from the row — never a create — and the row is written back unchanged, its
identifier included. -/
theorem c2_update_on_resolved (w : CalWorld) (table : List Row) (k : Nat) (r : Row)
    (ev : CalEvent) (hr : table[k]? = some r)
    (hres : (calAt (acquiredCal w) table k).getEventById r.storedId = some ev) :
    (setUpCalendar noFail w table).trace.length = table.length ∧
    (setUpCalendar noFail w table).trace[k]? = some (CalCall.update ev.id r.payload) ∧
    (setUpCalendar noFail w table).table[k]? = some r := by
  have hid : r.storedId = some ev.id := getEventById_eq_some_id _ _ _ hres
  have hrow : ({ r with storedId := some ev.id } : Row) = r := by
    cases r
    simp only [Row.mk.injEq] at hid ⊢
    simp [hid.symm]
  rw [setUpCalendar_noFail]
  refine ⟨runTrace_length _ _, ?_, ?_⟩
  · show (runTrace (acquiredCal w) table)[k]? = some (CalCall.update ev.id r.payload)
    rw [runTrace_getElem?, hr, Option.map_some']
    rw [(stepRow_of_some (calAt (acquiredCal w) table k) r ev hres).2.2]
  · show (runRows (acquiredCal w) table)[k]? = some r
    rw [runRows_getElem?, hr, Option.map_some']
    rw [(stepRow_of_some (calAt (acquiredCal w) table k) r ev hres).2.1, hrow]

theorem c2_update_on_resolved_witness :
    (setUpCalendar noFail wE [rowE]).trace[0]? = some (CalCall.update evE.id rowE.payload) :=
  (c2_update_on_resolved wE [rowE] 0 rowE evE (by rfl) (by decide)).2.1

/-- C3 counterexample: for a single fresh row (stored id null), the first
run traces one create and no update, while the second run traces one
update; so the second run's update payloads (one element) differ from the
first run's (empty), refuting the claim as stated. -/
theorem c3_counterexample :
    ¬ (updatePayloads (pass2 w0 [rowA]).trace
        = updatePayloads (setUpCalendar noFail w0 [rowA]).trace) := by decide

/-- C3 amended: running the pass twice with the table unchanged in between
produces zero creates on the second run, the second run issues only
updates, and the second run's per-call payloads (title, start, end,
location) coincide with the first run's per-call payloads — whether a
row's first-run call was a create or an update.  (As stated the claim
compares the second run's update payloads with the first run's update
calls only; a row created in the first run has no first-run update call.) -/
theorem c3_idempotent_second_run (w : CalWorld) (table : List Row) (hwf : w.wf = true) :
    (pass2 w table).trace.countP CalCall.isCreate = 0 ∧
    (pass2 w table).trace.all CalCall.isUpdate = true ∧
    (pass2 w table).trace.map CalCall.payloadOf
      = (setUpCalendar noFail w table).trace.map CalCall.payloadOf := by
  have hmaps : ∀ l : List Row, l.map (fun r => some r.payload) = (l.map Row.payload).map some := by
    intro l
    induction l with
    | nil => rfl
    | cons x xs ih => simp [ih]
  have hcal2 : acquiredCal ((setUpCalendar noFail w table).world)
      = calsAfter (acquiredCal w) table := acquiredCal_after_pass w table hwf
  have htab : (setUpCalendar noFail w table).table = runRows (acquiredCal w) table := by
    rw [setUpCalendar_noFail]
  have htrace2 : (pass2 w table).trace
      = runTrace (calsAfter (acquiredCal w) table) (runRows (acquiredCal w) table) := by
    unfold pass2
    rw [show (setUpCalendar noFail (setUpCalendar noFail w table).world
          (setUpCalendar noFail w table).table).trace
        = runTrace (acquiredCal ((setUpCalendar noFail w table).world))
            ((setUpCalendar noFail w table).table) from by rw [setUpCalendar_noFail]]
    rw [hcal2, htab]
  have hall : (runTrace (calsAfter (acquiredCal w) table)
      (runRows (acquiredCal w) table)).all CalCall.isUpdate = true :=
    runTrace_all_updates _ _ (runRows_resolvable (acquiredCal w) table)
  refine ⟨?_, ?_, ?_⟩
  · rw [htrace2]
    exact all_updates_no_creates _ hall
  · rw [htrace2]
    exact hall
  · rw [htrace2, runTrace_payloads]
    have h1 : (setUpCalendar noFail w table).trace = runTrace (acquiredCal w) table := by
      rw [setUpCalendar_noFail]
    rw [h1, runTrace_payloads, hmaps, hmaps, runRows_payloads]

theorem c3_idempotent_second_run_witness :
    (pass2 w0 [rowA]).trace.countP CalCall.isCreate = 0 :=
  (c3_idempotent_second_run w0 [rowA] (by decide)).1

/-- C4 counterexample: two fresh rows, the external call for row 2 throws.
The pass aborts after creating row 1's event (the trace shows the create),
but the table comes out exactly as it went in — row 1's identifier is NOT
committed (`range.setValues` runs only after the whole loop) — and
re-running from row 1 performs a create for row 1 again. -/
theorem c4_counterexample :
    (setUpCalendar fail2 w0 [rowA, rowB]).aborted = true ∧
    (setUpCalendar fail2 w0 [rowA, rowB]).trace = [CalCall.create rowA.payload] ∧
    (setUpCalendar fail2 w0 [rowA, rowB]).table = [rowA, rowB] ∧
    (setUpCalendar noFail (setUpCalendar fail2 w0 [rowA, rowB]).world
        (setUpCalendar fail2 w0 [rowA, rowB]).table).trace[0]?
      = some (CalCall.create rowA.payload) := by decide

/-- C4 amended: if the external create/update call for some row fails with
TransientUnavailable, the pass aborts and persists NO identifiers at all —
the table keeps its pre-pass values for every row, the rows before the
failing one included (the write-back `range.setValues` only happens after
the whole loop succeeds); events already created remain on the calendar,
so re-running from row 1 repeats the create for any earlier row whose
identifier was to be freshly recorded. -/
theorem c4_abort_preserves_table (fail : Nat → Bool) (w : CalWorld) (table : List Row)
    (h : (setUpCalendar fail w table).aborted = true) :
    (setUpCalendar fail w table).table = table := by
  cases hs : syncRows fail 1 w.acquire.2.2 table with
  | ok c rs tr =>
      have habort : (setUpCalendar fail w table).aborted = false := by
        simp [setUpCalendar, hs]
      rw [habort] at h
      simp at h
  | err c tr => simp [setUpCalendar, hs]

theorem c4_abort_preserves_table_witness :
    (setUpCalendar fail2 w0 [rowA, rowB]).table = [rowA, rowB] :=
  c4_abort_preserves_table fail2 w0 [rowA, rowB] (by decide)

/-- C5: the pass never issues a delete call — under every failure schedule,
world and table (in particular for a table from which rows were removed
since an earlier run), the trace contains no delete — and, moreover, every
event id resolvable on the calendar when the row loop starts is still
resolvable when it ends: events are never removed. -/
theorem c5_never_deletes :
    (∀ (fail : Nat → Bool) (w : CalWorld) (table : List Row),
      (setUpCalendar fail w table).trace.countP CalCall.isDelete = 0) ∧
    (∀ (fail : Nat → Bool) (idx : Nat) (cal : Calendar) (rows : List Row) (i : Nat),
      resolvable cal i = true →
      resolvable ((syncRows fail idx cal rows).cal) i = true) := by
  constructor
  · intro fail w table
    rw [setUpCalendar_trace]
    exact syncRows_trace_no_delete fail 1 (acquiredCal w) table
  · intro fail idx cal rows i h
    exact syncRows_cal_resolvable fail idx cal rows i h

theorem c5_never_deletes_witness :
    resolvable ((syncRows noFail 1 calE [rowE]).cal) 0 = true :=
  c5_never_deletes.2 noFail 1 calE [rowE] 0 (by decide)

/-! ### Claim C7: open actions with no stored id -/

/-- C7: when `openForm_` finds no stored form id, or `openCalendar_` finds
no stored calendar id, the operation shows exactly one blocking alert and
returns without opening anything — no retry, no open. -/
theorem c7_open_missing_id (editUrl : Nat → String) :
    openFormAction none editUrl = (["No registration form has been set up yet."], []) ∧
    openCalendarAction none = (["No calendar has been set up yet."], []) :=
  ⟨rfl, rfl⟩

/-! ### Lemmas for the grouping sub-algorithm -/

theorem seenOrder_concat [BEq α] (l : List α) (x : α) :
    seenOrder (l ++ [x])
      = if (seenOrder l).any (fun y => y == x) then seenOrder l
        else seenOrder l ++ [x] := by
  simp [seenOrder, List.foldl_append]

theorem mem_seenOrder_aux [BEq α] [LawfulBEq α] (l : List α) (acc : List α) (y : α) :
    (y ∈ l.foldl (fun acc x => if acc.any (fun y => y == x) then acc else acc ++ [x]) acc)
      ↔ (y ∈ acc ∨ y ∈ l) := by
  induction l generalizing acc with
  | nil => simp
  | cons x xs ih =>
      rw [List.foldl_cons, ih]
      by_cases hx : (acc.any (fun y => y == x)) = true
      · obtain ⟨z, hz, hzx⟩ := List.any_eq_true.mp hx
        have hmem : x ∈ acc := (eq_of_beq hzx) ▸ hz
        rw [if_pos hx]
        constructor
        · rintro (h | h)
          · exact Or.inl h
          · exact Or.inr (List.mem_cons_of_mem x h)
        · rintro (h | h)
          · exact Or.inl h
          · rcases List.mem_cons.mp h with h1 | h1
            · exact Or.inl (h1 ▸ hmem)
            · exact Or.inr h1
      · rw [if_neg hx]
        simp only [List.mem_append, List.mem_cons, List.mem_singleton,
          List.not_mem_nil, or_false]
        tauto

theorem mem_seenOrder [BEq α] [LawfulBEq α] (l : List α) (y : α) :
    y ∈ seenOrder l ↔ y ∈ l := by
  rw [seenOrder, mem_seenOrder_aux]
  simp

theorem filter_eq_nil_of_false (l : List α) (p : α → Bool)
    (h : ∀ a ∈ l, p a = false) : l.filter p = [] := by
  induction l with
  | nil => rfl
  | cons x xs ih =>
      rw [List.filter_cons, h x (List.mem_cons_self x xs)]
      exact ih (fun a ha => h a (List.mem_cons_of_mem x ha))

theorem daysOf_concat (rows : List FormRow) (r : FormRow) :
    daysOf (rows ++ [r])
      = if (daysOf rows).any (fun y => y == r.day) then daysOf rows
        else daysOf rows ++ [r.day] := by
  simp only [daysOf, List.map_append, List.map_cons, List.map_nil]
  exact seenOrder_concat _ _

theorem timesOf_concat_ne (rows : List FormRow) (r : FormRow) (d : String)
    (h : (r.day == d) = false) : timesOf (rows ++ [r]) d = timesOf rows d := by
  simp [timesOf, List.filter_append, List.filter_cons, h]

theorem timesOf_concat_eq (rows : List FormRow) (r : FormRow) (d : String)
    (h : (r.day == d) = true) :
    timesOf (rows ++ [r]) d
      = if (timesOf rows d).any (fun y => y == r.time) then timesOf rows d
        else timesOf rows d ++ [r.time] := by
  simp only [timesOf, List.filter_append, List.filter_cons, h, if_true,
    List.filter_nil, List.map_append, List.map_cons, List.map_nil]
  exact seenOrder_concat _ _

theorem titlesFor_concat_true (rows : List FormRow) (r : FormRow) (d t : String)
    (h : (r.day == d && r.time == t) = true) :
    titlesFor (rows ++ [r]) d t = titlesFor rows d t ++ [r.title] := by
  simp [titlesFor, List.filter_append, List.filter_cons, h]

theorem titlesFor_concat_false (rows : List FormRow) (r : FormRow) (d t : String)
    (h : (r.day == d && r.time == t) = false) :
    titlesFor (rows ++ [r]) d t = titlesFor rows d t := by
  simp [titlesFor, List.filter_append, List.filter_cons, h]

theorem mem_timesOf (rows : List FormRow) (d t : String) :
    t ∈ timesOf rows d ↔ ∃ r, r ∈ rows ∧ (r.day == d) = true ∧ r.time = t := by
  rw [timesOf, mem_seenOrder]
  constructor
  · intro h
    obtain ⟨r1, hr1, ht⟩ := List.mem_map.mp h
    obtain ⟨hr2, hd⟩ := List.mem_filter.mp hr1
    exact ⟨r1, hr2, hd, ht⟩
  · rintro ⟨r1, hr1, hd, ht⟩
    exact List.mem_map.mpr ⟨r1, List.mem_filter.mpr ⟨hr1, hd⟩, ht⟩

theorem mem_daysOf (rows : List FormRow) (d : String) :
    d ∈ daysOf rows ↔ ∃ r, r ∈ rows ∧ r.day = d := by
  rw [daysOf, mem_seenOrder]
  constructor
  · intro h
    obtain ⟨r1, hr1, hd⟩ := List.mem_map.mp h
    exact ⟨r1, hr1, hd⟩
  · rintro ⟨r1, hr1, hd⟩
    exact List.mem_map.mpr ⟨r1, hr1, hd⟩

theorem titlesFor_nil_of_not_time (rows : List FormRow) (d t : String)
    (h : t ∉ timesOf rows d) : titlesFor rows d t = [] := by
  have hfil : rows.filter (fun r => r.day == d && r.time == t) = [] := by
    apply filter_eq_nil_of_false
    intro a ha
    by_cases hd : (a.day == d) = true
    · by_cases ht : a.time = t
      · exact absurd ((mem_timesOf rows d t).mpr ⟨a, ha, hd, ht⟩) h
      · simp [hd, beq_eq_false_iff_ne.mpr ht]
    · simp [Bool.eq_false_iff.mpr hd]
  rw [titlesFor, hfil]
  rfl

theorem timesOf_nil_of_not_day (rows : List FormRow) (d : String)
    (h : d ∉ daysOf rows) : timesOf rows d = [] := by
  have hfil : rows.filter (fun r => r.day == d) = [] := by
    apply filter_eq_nil_of_false
    intro a ha
    by_cases hd : a.day = d
    · exact absurd ((mem_daysOf rows d).mpr ⟨a, ha, hd⟩) h
    · exact beq_eq_false_iff_ne.mpr hd
  rw [timesOf, hfil]
  rfl

theorem titlesFor_nil_of_not_day (rows : List FormRow) (d t : String)
    (h : d ∉ daysOf rows) : titlesFor rows d t = [] := by
  have hfil : rows.filter (fun r => r.day == d && r.time == t) = [] := by
    apply filter_eq_nil_of_false
    intro a ha
    by_cases hd : a.day = d
    · exact absurd ((mem_daysOf rows d).mpr ⟨a, ha, hd⟩) h
    · simp [beq_eq_false_iff_ne.mpr hd]
  rw [titlesFor, hfil]
  rfl

theorem any_key_map {β : Type} (l : List String) (g : String → β) (d0 : String) :
    ((l.map (fun x => (x, g x))).any (fun p => p.1 == d0)) = l.any (fun y => y == d0) := by
  induction l with
  | nil => rfl
  | cons x xs ih => simp [List.any_cons, ih]

theorem specNested_concat (rows : List FormRow) (r : FormRow) :
    specNested (rows ++ [r]) = addDay (specNested rows) r.day r.time r.title := by
  by_cases hday : ((daysOf rows).any (fun y => y == r.day)) = true
  · have hd2 : daysOf (rows ++ [r]) = daysOf rows := by
      rw [daysOf_concat, if_pos hday]
    rw [addDay, if_pos (by rw [specNested, any_key_map]; exact hday)]
    rw [specNested, hd2, specNested, List.map_map]
    apply List.map_congr_left
    intro d hd
    simp only [Function.comp_apply]
    by_cases hdr : (d == r.day) = true
    · rw [if_pos hdr]
      have hdeq : d = r.day := eq_of_beq hdr
      have hrd : (r.day == d) = true := by rw [hdeq]; simp
      rw [timesOf_concat_eq rows r d hrd]
      by_cases htime : ((timesOf rows d).any (fun y => y == r.time)) = true
      · rw [if_pos htime]
        rw [addTime, if_pos (by rw [any_key_map]; exact htime)]
        rw [List.map_map]
        refine congrArg (fun z => (d, z)) ?_
        apply List.map_congr_left
        intro t ht
        simp only [Function.comp_apply]
        by_cases htr : (t == r.time) = true
        · rw [if_pos htr]
          have hteq : t = r.time := eq_of_beq htr
          rw [titlesFor_concat_true rows r d t (by simp [hrd, hteq])]
        · rw [if_neg htr]
          have htne : (r.time == t) = false := by
            apply beq_eq_false_iff_ne.mpr
            intro hh
            exact htr (by simp [hh.symm])
          rw [titlesFor_concat_false rows r d t (by simp [htne])]
      · rw [if_neg htime]
        rw [addTime, if_neg (by rw [any_key_map]; exact htime)]
        rw [List.map_append]
        refine congrArg (fun z => (d, z)) ?_
        congr 1
        · apply List.map_congr_left
          intro t ht
          have htne : (r.time == t) = false := by
            apply beq_eq_false_iff_ne.mpr
            intro hh
            exact htime (List.any_eq_true.mpr ⟨t, ht, by simp [hh.symm]⟩)
          rw [titlesFor_concat_false rows r d t (by simp [htne])]
        · have hnt : r.time ∉ timesOf rows d := fun hmem =>
            htime (List.any_eq_true.mpr ⟨r.time, hmem, by simp⟩)
          simp only [List.map_cons, List.map_nil]
          rw [titlesFor_concat_true rows r d r.time (by simp [hrd])]
          rw [titlesFor_nil_of_not_time rows d r.time hnt]
          simp only [List.nil_append]
    · rw [if_neg hdr]
      have hrd : (r.day == d) = false := by
        apply beq_eq_false_iff_ne.mpr
        intro hh
        exact hdr (by simp [hh.symm])
      rw [timesOf_concat_ne rows r d hrd]
      refine congrArg (fun z => (d, z)) ?_
      apply List.map_congr_left
      intro t ht
      rw [titlesFor_concat_false rows r d t (by simp [hrd])]
  · have hnotmem : r.day ∉ daysOf rows := fun hmem =>
      hday (List.any_eq_true.mpr ⟨r.day, hmem, by simp⟩)
    have hd2 : daysOf (rows ++ [r]) = daysOf rows ++ [r.day] := by
      rw [daysOf_concat, if_neg hday]
    rw [addDay, if_neg (by rw [specNested, any_key_map]; exact hday)]
    rw [specNested, hd2, List.map_append, specNested]
    congr 1
    · apply List.map_congr_left
      intro d hd
      have hrd : (r.day == d) = false := by
        apply beq_eq_false_iff_ne.mpr
        intro hh
        exact hnotmem (hh ▸ hd)
      rw [timesOf_concat_ne rows r d hrd]
      refine congrArg (fun z => (d, z)) ?_
      apply List.map_congr_left
      intro t ht
      rw [titlesFor_concat_false rows r d t (by simp [hrd])]
    · simp only [List.map_cons, List.map_nil]
      rw [timesOf_concat_eq rows r r.day (by simp)]
      rw [timesOf_nil_of_not_day rows r.day hnotmem]
      rw [if_neg (by simp)]
      simp only [List.nil_append, List.map_cons, List.map_nil]
      rw [titlesFor_concat_true rows r r.day r.time (by simp)]
      rw [titlesFor_nil_of_not_day rows r.day r.time hnotmem]
      rfl

/-- C6 counterexample: with days interleaved —
rows [(T1,A,x), (T2,B,y), (T3,A,z)] — the form emits groups in day-major
order [(A,x), (A,z), (B,y)], not in first-seen order of the (day, time)
key [(A,x), (B,y), (A,z)]: grouping is nested by day then time, so the
flat "first-seen order of the key" reading of the claim fails. -/
theorem c6_counterexample :
    ¬ (formGroups (buildSchedule
          [{ title := "T1", day := "A", time := "x" },
           { title := "T2", day := "B", time := "y" },
           { title := "T3", day := "A", time := "z" }])
        = specGroupFlat
          [{ title := "T1", day := "A", time := "x" },
           { title := "T2", day := "B", time := "y" },
           { title := "T3", day := "A", time := "z" }]) := by decide

/-- C6 amended: the grouping sub-algorithm groups rows by day in
first-seen order of the day and, within each day, by time in first-seen
order among that day's rows, titles preserving row order (equality with
`specNested`, which is written from exactly that description); the form's
flattened group order is therefore day-major.  The claim's concrete
example, whose two keys share one day, does come out as stated:
[("Mon","10:00") -> [T1,T2], ("Mon","11:00") -> [T3]]. -/
theorem c6_grouping_nested :
    (∀ rows : List FormRow, buildSchedule rows = specNested rows) ∧
    formGroups (buildSchedule
        [{ title := "T1", day := "Mon", time := "10:00" },
         { title := "T2", day := "Mon", time := "10:00" },
         { title := "T3", day := "Mon", time := "11:00" }])
      = [(("Mon", "10:00"), ["T1", "T2"]), (("Mon", "11:00"), ["T3"])] := by
  constructor
  · intro rows
    induction rows using List.reverseRecOn with
    | nil => rfl
    | append_singleton rs r ih =>
        have hstep : buildSchedule (rs ++ [r]) = addDay (buildSchedule rs) r.day r.time r.title := by
          simp [buildSchedule, List.foldl_append]
        rw [hstep, ih, specNested_concat]
  · decide

/-! ### Lemmas about the sheet grid -/

theorem listModify_length (l : List α) (i : Nat) (f : α → α) :
    (listModify l i f).length = l.length := by
  induction l generalizing i with
  | nil => rfl
  | cons x xs ih =>
      cases i with
      | zero => rfl
      | succ n => simp [listModify, ih]

theorem listModify_oob (l : List α) (i : Nat) (f : α → α) (h : l.length ≤ i) :
    listModify l i f = l := by
  induction l generalizing i with
  | nil => rfl
  | cons x xs ih =>
      cases i with
      | zero => simp at h
      | succ n => simp [listModify, ih n (by simpa using h)]

theorem getD_listModify_self (l : List α) (i : Nat) (f : α → α) (d : α)
    (h : i < l.length) : (listModify l i f).getD i d = f (l.getD i d) := by
  induction l generalizing i with
  | nil => simp at h
  | cons x xs ih =>
      cases i with
      | zero => rfl
      | succ n =>
          simp only [listModify, List.getD_cons_succ]
          exact ih n (by simpa using h)

theorem getD_listModify_ne (l : List α) (i j : Nat) (f : α → α) (d : α)
    (h : i ≠ j) : (listModify l i f).getD j d = l.getD j d := by
  induction l generalizing i j with
  | nil => rfl
  | cons x xs ih =>
      cases i with
      | zero =>
          cases j with
          | zero => exact absurd rfl h
          | succ m => simp [listModify, List.getD_cons_succ]
      | succ n =>
          cases j with
          | zero => simp [listModify, List.getD_cons_zero]
          | succ m =>
              simp only [listModify, List.getD_cons_succ]
              exact ih n m (by omega)

theorem mem_listModify (l : List α) (i : Nat) (f : α → α) (y : α)
    (h : y ∈ listModify l i f) : y ∈ l ∨ ∃ x ∈ l, y = f x := by
  induction l generalizing i with
  | nil => simp [listModify] at h
  | cons x xs ih =>
      cases i with
      | zero =>
          rcases List.mem_cons.mp h with h1 | h1
          · exact Or.inr ⟨x, List.mem_cons_self x xs, h1⟩
          · exact Or.inl (List.mem_cons_of_mem x h1)
      | succ n =>
          rcases List.mem_cons.mp h with h1 | h1
          · exact Or.inl (h1 ▸ List.mem_cons_self x xs)
          · rcases ih n h1 with h2 | ⟨z, hz, he⟩
            · exact Or.inl (List.mem_cons_of_mem x h2)
            · exact Or.inr ⟨z, List.mem_cons_of_mem x hz, he⟩

theorem setValue_lastRow (sh : Sheet) (r c : Nat) (v : JSVal) :
    (sh.setValue r c v).lastRow = sh.lastRow := by
  simp [Sheet.lastRow, Sheet.setValue, listModify_length]

theorem setValue_row_lengths (sh : Sheet) (r c : Nat) (v : JSVal) (L : Nat)
    (h : ∀ row ∈ sh.cells, row.length = L) :
    ∀ row ∈ (sh.setValue r c v).cells, row.length = L := by
  intro row hrow
  rcases mem_listModify _ _ _ _ hrow with h1 | ⟨row0, hrow0, he⟩
  · exact h row h1
  · rw [he, listModify_length]
    exact h row0 hrow0

theorem getValue_setValue_self (sh : Sheet) (r c : Nat) (v : JSVal)
    (hr : r - 1 < sh.cells.length)
    (hc : c - 1 < (sh.cells.getD (r - 1) []).length) :
    (sh.setValue r c v).getValue r c = v := by
  unfold Sheet.getValue Sheet.setValue
  rw [getD_listModify_self _ _ _ _ hr, getD_listModify_self _ _ _ _ hc]

theorem getValue_setValue_ne (sh : Sheet) (r c r2 c2 : Nat) (v : JSVal)
    (h : r - 1 ≠ r2 - 1 ∨ c - 1 ≠ c2 - 1) :
    (sh.setValue r c v).getValue r2 c2 = sh.getValue r2 c2 := by
  unfold Sheet.getValue Sheet.setValue
  rcases h with h | h
  · rw [getD_listModify_ne _ _ _ _ _ h]
  · by_cases hr : r - 1 = r2 - 1
    · by_cases hlen : r - 1 < sh.cells.length
      · rw [hr] at hlen ⊢
        rw [getD_listModify_self _ _ _ _ hlen, getD_listModify_ne _ _ _ _ _ h]
      · rw [listModify_oob _ _ _ (by omega)]
    · rw [getD_listModify_ne _ _ _ _ _ hr]

theorem insertColumnAfter_end (sh : Sheet)
    (h : ∀ row ∈ sh.cells, row.length = sh.lastCol) :
    (sh.insertColumnAfter sh.lastCol).cells
      = sh.cells.map (fun row => row ++ [JSVal.str ""]) := by
  unfold Sheet.insertColumnAfter
  show List.map _ sh.cells = List.map _ sh.cells
  apply List.map_congr_left
  intro row hrow
  rw [List.take_of_length_le (by rw [h row hrow]),
      List.drop_eq_nil_of_le (by rw [h row hrow])]
  simp

theorem rect_row_lengths (sh : Sheet) (h : sh.rect = true) :
    ∀ row ∈ sh.cells, row.length = sh.lastCol := by
  intro row hrow
  have := (List.all_eq_true.mp h) row hrow
  simpa using this

/-! ### Characterizing the sendEmails loop -/

theorem getD_mem_of_lt (l : List α) (i : Nat) (d : α) (h : i < l.length) :
    l.getD i d ∈ l := by
  induction l generalizing i with
  | nil => simp at h
  | cons x xs ih =>
      cases i with
      | zero => exact List.mem_cons_self x xs
      | succ n =>
          rw [List.getD_cons_succ]
          exact List.mem_cons_of_mem x (ih n (by simpa using h))

theorem sendStep_skip (lastCol : Nat) (st : SendState) (s : Nat)
    (h : rowEmailed st.sheet lastCol s = false) : sendStep lastCol st s = st := by
  by_cases h1 : jsEqStr (st.sheet.getValue s lastCol) "NOTIFIED" = true
  · unfold sendStep
    rw [if_pos h1]
  · have hn : jsEqStr (st.sheet.getValue s lastCol) "NOTIFIED" = false :=
      Bool.eq_false_iff.mpr h1
    by_cases h2 : jsEqStr (st.sheet.getValue s APPROVAL_COLUMN) "APPROVED" = true
    · exfalso
      have ht : rowEmailed st.sheet lastCol s = true := by
        unfold rowEmailed
        rw [hn, h2]
        simp
      rw [h] at ht
      simp at ht
    · by_cases h3 : jsEqStr (st.sheet.getValue s APPROVAL_COLUMN) "NOT APPROVED" = true
      · exfalso
        have ht : rowEmailed st.sheet lastCol s = true := by
          unfold rowEmailed
          rw [hn, h3]
          simp
        rw [h] at ht
        simp at ht
      · by_cases h4 : jsEqStr (st.sheet.getValue s APPROVAL_COLUMN) "IN PROGRESS" = true
        · unfold sendStep
          rw [if_neg h1, if_neg h2, if_neg h3, if_pos h4]
        · exfalso
          have ht : rowEmailed st.sheet lastCol s = true := by
            unfold rowEmailed
            rw [hn, Bool.eq_false_iff.mpr h4]
            simp
          rw [h] at ht
          simp at ht

theorem sendStep_send (lastCol : Nat) (st : SendState) (s : Nat)
    (h : rowEmailed st.sheet lastCol s = true) :
    ∃ su me, sendStep lastCol st s =
      { sheet := st.sheet.setValue s lastCol (JSVal.str "NOTIFIED")
      , message := me, subject := su
      , emails := st.emails ++ [(s, st.sheet.getValue s 3, su, me)] } := by
  have h1 : jsEqStr (st.sheet.getValue s lastCol) "NOTIFIED" = false := by
    cases hx : jsEqStr (st.sheet.getValue s lastCol) "NOTIFIED" with
    | false => rfl
    | true =>
        exfalso
        unfold rowEmailed at h
        rw [hx] at h
        simp at h
  unfold sendStep
  rw [if_neg (by simp [h1])]
  by_cases h2 : jsEqStr (st.sheet.getValue s APPROVAL_COLUMN) "APPROVED" = true
  · rw [if_pos h2]
    exact ⟨some "TimeSheet Approval", some "Your timesheet has been approved", rfl⟩
  · rw [if_neg h2]
    by_cases h3 : jsEqStr (st.sheet.getValue s APPROVAL_COLUMN) "NOT APPROVED" = true
    · rw [if_pos h3]
      exact ⟨some "TimeSheet not Approved", some "NOT APPROVED", rfl⟩
    · rw [if_neg h3]
      have h4 : jsEqStr (st.sheet.getValue s APPROVAL_COLUMN) "IN PROGRESS" = false := by
        cases hx : jsEqStr (st.sheet.getValue s APPROVAL_COLUMN) "IN PROGRESS" with
        | false => rfl
        | true =>
            exfalso
            unfold rowEmailed at h
            rw [h1, Bool.eq_false_iff.mpr h2, Bool.eq_false_iff.mpr h3, hx] at h
            simp at h
      rw [if_neg (by simp [h4])]
      exact ⟨st.subject, st.message, rfl⟩

theorem sendLoop_all_skip (lastCol : Nat) (n : Nat) :
    ∀ (s : Nat) (st : SendState),
      (∀ i, s ≤ i → i < s + n → rowEmailed st.sheet lastCol i = false) →
      (List.range' s n).foldl (sendStep lastCol) st = st := by
  induction n with
  | zero =>
      intro s st h
      rfl
  | succ m ih =>
      intro s st h
      have hrange : List.range' s (m+1) = s :: List.range' (s+1) m := rfl
      have hstep : sendStep lastCol st s = st :=
        sendStep_skip _ _ _ (h s le_rfl (by omega))
      rw [hrange, List.foldl_cons, hstep]
      exact ih (s+1) st (fun i h1 h2 => h i (by omega) (by omega))

theorem sendLoop_char (sh : Sheet) (hcol : 1 ≤ sh.lastCol) :
    ∀ (n s : Nat) (st : SendState), 2 ≤ s → (s + n ≤ sh.lastRow + 1 ∨ n = 0) →
      st.sheet.cells.length = sh.cells.length →
      (∀ row ∈ st.sheet.cells, row.length = sh.lastCol) →
      (∀ r c, s ≤ r → st.sheet.getValue r c = sh.getValue r c) →
      (∀ r c, 1 ≤ c →
        ((List.range' s n).foldl (sendStep sh.lastCol) st).sheet.getValue r c
          = if c = sh.lastCol ∧ s ≤ r ∧ r < s + n ∧ rowEmailed sh sh.lastCol r = true
            then JSVal.str "NOTIFIED" else st.sheet.getValue r c) ∧
      (∃ tail,
        ((List.range' s n).foldl (sendStep sh.lastCol) st).emails = st.emails ++ tail ∧
        tail.map (fun e => e.1) = (List.range' s n).filter (rowEmailed sh sh.lastCol) ∧
        (∀ e ∈ tail, e.2.1 = sh.getValue e.1 3)) ∧
      ((List.range' s n).foldl (sendStep sh.lastCol) st).sheet.cells.length
        = sh.cells.length ∧
      (∀ row ∈ ((List.range' s n).foldl (sendStep sh.lastCol) st).sheet.cells,
        row.length = sh.lastCol) := by
  intro n
  induction n with
  | zero =>
      intro s st hs hn hlen hrows hagree
      refine ⟨?_, ⟨[], by simp, by simp, by simp⟩, hlen, hrows⟩
      intro r c hc
      rw [if_neg (by rintro ⟨-, h1, h2, -⟩; omega)]
      rfl
  | succ m ih =>
      intro s st hs hn hlen hrows hagree
      have hn2 : s + (m+1) ≤ sh.lastRow + 1 := by
        rcases hn with h | h
        · exact h
        · simp at h
      have hrange : List.range' s (m+1) = s :: List.range' (s+1) m := rfl
      have hread1 : st.sheet.getValue s sh.lastCol = sh.getValue s sh.lastCol :=
        hagree s _ le_rfl
      have hread3 : st.sheet.getValue s 3 = sh.getValue s 3 := hagree s 3 le_rfl
      have hread11 : st.sheet.getValue s APPROVAL_COLUMN
          = sh.getValue s APPROVAL_COLUMN := hagree s _ le_rfl
      have hre : rowEmailed st.sheet sh.lastCol s = rowEmailed sh sh.lastCol s := by
        unfold rowEmailed
        rw [hread1, hread11]
      cases hcase : rowEmailed sh sh.lastCol s with
      | false =>
          have hstep : sendStep sh.lastCol st s = st :=
            sendStep_skip _ _ _ (by rw [hre, hcase])
          obtain ⟨IH1, ⟨tail, htail1, htail2, htail3⟩, IH3, IH4⟩ :=
            ih (s+1) st (by omega) (Or.inl (by omega)) hlen hrows
              (fun r c h => hagree r c (by omega))
          rw [hrange, List.foldl_cons, hstep]
          refine ⟨?_, ⟨tail, htail1, ?_, htail3⟩, IH3, IH4⟩
          · intro r c hc
            rw [IH1 r c hc]
            by_cases hif : c = sh.lastCol ∧ s+1 ≤ r ∧ r < s+1+m ∧
                rowEmailed sh sh.lastCol r = true
            · rw [if_pos hif]
              obtain ⟨a, b, c2, d⟩ := hif
              rw [if_pos ⟨a, by omega, by omega, d⟩]
            · rw [if_neg hif, if_neg ?_]
              rintro ⟨a, b, c2, d⟩
              apply hif
              rcases Nat.eq_or_lt_of_le b with he | hlt
              · exfalso
                rw [← he] at d
                rw [hcase] at d
                simp at d
              · exact ⟨a, by omega, by omega, d⟩
          · rw [htail2]
            simp [List.filter_cons, hcase]
      | true =>
          obtain ⟨su, me, hstep⟩ := sendStep_send sh.lastCol st s (by rw [hre, hcase])
          have hlr : s ≤ sh.cells.length := by
            have h1 : sh.lastRow = sh.cells.length := rfl
            omega
          have hn3 := hn2
          have hvalidrow : s - 1 < st.sheet.cells.length := by
            rw [hlen]
            omega
          have hvalidcol : sh.lastCol - 1 < ((st.sheet.cells.getD (s-1) []).length) := by
            have hmem : st.sheet.cells.getD (s-1) [] ∈ st.sheet.cells :=
              getD_mem_of_lt _ _ _ hvalidrow
            rw [hrows _ hmem]
            omega
          have hsheet1 : (sendStep sh.lastCol st s).sheet
              = st.sheet.setValue s sh.lastCol (JSVal.str "NOTIFIED") := by
            rw [hstep]
          have hemails1 : (sendStep sh.lastCol st s).emails
              = st.emails ++ [(s, st.sheet.getValue s 3, su, me)] := by
            rw [hstep]
          have hlen1 : (sendStep sh.lastCol st s).sheet.cells.length = sh.cells.length := by
            rw [hsheet1]
            simp [Sheet.setValue, listModify_length, hlen]
          have hrows1 : ∀ row ∈ (sendStep sh.lastCol st s).sheet.cells,
              row.length = sh.lastCol := by
            rw [hsheet1]
            exact setValue_row_lengths _ _ _ _ _ hrows
          have hagree1 : ∀ r c, s+1 ≤ r →
              (sendStep sh.lastCol st s).sheet.getValue r c = sh.getValue r c := by
            intro r c hr
            rw [hsheet1, getValue_setValue_ne _ _ _ _ _ _ (Or.inl (by omega))]
            exact hagree r c (by omega)
          obtain ⟨IH1, ⟨tail, htail1, htail2, htail3⟩, IH3, IH4⟩ :=
            ih (s+1) (sendStep sh.lastCol st s) (by omega) (Or.inl (by omega))
              hlen1 hrows1 hagree1
          rw [hrange, List.foldl_cons]
          refine ⟨?_, ⟨(s, st.sheet.getValue s 3, su, me) :: tail, ?_, ?_, ?_⟩, IH3, IH4⟩
          · intro r c hc
            rw [IH1 r c hc]
            by_cases hif : c = sh.lastCol ∧ s+1 ≤ r ∧ r < s+1+m ∧
                rowEmailed sh sh.lastCol r = true
            · rw [if_pos hif]
              obtain ⟨a, b, c2, d⟩ := hif
              rw [if_pos ⟨a, by omega, by omega, d⟩]
            · rw [if_neg hif]
              by_cases hif2 : c = sh.lastCol ∧ s ≤ r ∧ r < s + (m+1) ∧
                  rowEmailed sh sh.lastCol r = true
              · obtain ⟨a, b, c2, d⟩ := hif2
                have hr : r = s := by
                  by_contra hne
                  exact hif ⟨a, by omega, by omega, d⟩
                rw [if_pos ⟨a, b, c2, d⟩, hsheet1, hr, a]
                exact getValue_setValue_self _ _ _ _ hvalidrow hvalidcol
              · rw [if_neg hif2, hsheet1]
                by_cases hr : r = s
                · have hcne : c ≠ sh.lastCol := by
                    intro hceq
                    exact hif2 ⟨hceq, by omega, by omega, by rw [hr]; exact hcase⟩
                  exact getValue_setValue_ne _ _ _ _ _ _ (Or.inr (by omega))
                · exact getValue_setValue_ne _ _ _ _ _ _ (Or.inl (by omega))
          · rw [htail1, hemails1]
            simp
          · rw [List.map_cons, htail2]
            simp [List.filter_cons, hcase]
          · intro e he
            rcases List.mem_cons.mp he with h1 | h1
            · rw [h1]
              exact hread3
            · exact htail3 e h1

theorem lt_two_add_pred (L i : Nat) (h2 : 2 ≤ i) (h : i < 2 + (L - 1)) : i ≤ L := by
  omega

theorem sendEmails_char (sh : Sheet) (hcol : 1 ≤ sh.lastCol) (hrect : sh.rect = true) :
    (∀ r c, 1 ≤ c →
      (sendEmails sh).sheet.getValue r c
        = if c = sh.lastCol ∧ 2 ≤ r ∧ r ≤ sh.lastRow ∧ rowEmailed sh sh.lastCol r = true
          then JSVal.str "NOTIFIED" else sh.getValue r c) ∧
    ((sendEmails sh).emails.map (fun e => e.1)
        = (List.range' 2 (sh.lastRow - 1)).filter (rowEmailed sh sh.lastCol)) ∧
    (∀ e ∈ (sendEmails sh).emails, e.2.1 = sh.getValue e.1 3) ∧
    (sendEmails sh).sheet.cells.length = sh.cells.length ∧
    (∀ row ∈ (sendEmails sh).sheet.cells, row.length = sh.lastCol) := by
  have hrows := rect_row_lengths sh hrect
  obtain ⟨H1, ⟨tail, ht1, ht2, ht3⟩, H3, H4⟩ :=
    sendLoop_char sh hcol (sh.lastRow - 1) 2
      { sheet := sh, message := none, subject := none, emails := [] }
      (by omega) (by omega) rfl hrows (fun r c h => rfl)
  refine ⟨?_, ?_, ?_, H3, H4⟩
  · intro r c hc
    rw [show (sendEmails sh).sheet
        = ((List.range' 2 (sh.lastRow - 1)).foldl (sendStep sh.lastCol)
            { sheet := sh, message := none, subject := none, emails := [] }).sheet from rfl]
    rw [H1 r c hc]
    refine if_congr ?_ rfl rfl
    constructor
    · rintro ⟨a, b, c2, d⟩
      exact ⟨a, b, by omega, d⟩
    · rintro ⟨a, b, c2, d⟩
      exact ⟨a, b, by omega, d⟩
  · rw [show (sendEmails sh).emails
        = ((List.range' 2 (sh.lastRow - 1)).foldl (sendStep sh.lastCol)
            { sheet := sh, message := none, subject := none, emails := [] }).emails from rfl]
    rw [ht1]
    simpa using ht2
  · intro e he
    rw [show (sendEmails sh).emails
        = ((List.range' 2 (sh.lastRow - 1)).foldl (sendStep sh.lastCol)
            { sheet := sh, message := none, subject := none, emails := [] }).emails from rfl,
      ht1] at he
    simp only [List.nil_append] at he
    exact ht3 e he

/-! ### Claims C8 and C9 -/

/-- The concrete timesheet: a 12-column header plus one data row whose
email cell (column 3) is "a@b.c", approval cell (column 11) is the
unrecognized value "PENDING", and notified cell (column 12, the last
column) is "NOT NOTIFIED". -/
def tsSheet : Sheet :=
  { cells := [
      [JSVal.str "h", JSVal.str "h", JSVal.str "h", JSVal.str "h", JSVal.str "h",
       JSVal.str "h", JSVal.str "h", JSVal.str "h", JSVal.str "h", JSVal.str "h",
       JSVal.str "h", JSVal.str "h"],
      [JSVal.str "nm", JSVal.str "x", JSVal.str "a@b.c", JSVal.num 1, JSVal.num 2,
       JSVal.num 3, JSVal.num 4, JSVal.num 5, JSVal.num 10, JSVal.str "",
       JSVal.str "PENDING", JSVal.str "NOT NOTIFIED"]] }

/-- C8 counterexample: on `tsSheet`, whose single data row carries the
unrecognized approval value "PENDING" (none of APPROVED / NOT APPROVED /
IN PROGRESS), the row is NOT silently skipped: `sendEmails` sends a mail
for it (with subject and message still undefined, since no recognized row
preceded it) and overwrites its notified cell from "NOT NOTIFIED" to
"NOTIFIED" — the chain of `if`/`else if` has no final `else`, so control
falls through to `MailApp.sendEmail` and the NOTIFIED write. -/
theorem c8_counterexample :
    (sendEmails tsSheet).emails = [(2, JSVal.str "a@b.c", none, none)] ∧
    (sendEmails tsSheet).sheet.getValue 2 12 = JSVal.str "NOTIFIED" ∧
    tsSheet.getValue 2 12 = JSVal.str "NOT NOTIFIED" ∧
    jsEqStr (tsSheet.getValue 2 APPROVAL_COLUMN) "APPROVED" = false ∧
    jsEqStr (tsSheet.getValue 2 APPROVAL_COLUMN) "NOT APPROVED" = false ∧
    jsEqStr (tsSheet.getValue 2 APPROVAL_COLUMN) "IN PROGRESS" = false := by decide

/-- C8 amended: a data row whose approval cell holds a value other than
'APPROVED', 'NOT APPROVED' or 'IN PROGRESS' (and whose notified cell is
not already 'NOTIFIED') is NOT skipped: control falls through the
`if`/`else if` chain, an email is sent for that row (to the row's email
cell, with whatever the function-scoped subject/message variables then
hold) and the row's notified cell is set to 'NOTIFIED'.  Only 'IN
PROGRESS' rows and already-notified rows are silently skipped. -/
theorem c8_unrecognized_falls_through (sh : Sheet) (i : Nat)
    (hrect : sh.rect = true) (hcol : 1 ≤ sh.lastCol)
    (hi2 : 2 ≤ i) (hil : i ≤ sh.lastRow)
    (hnot : jsEqStr (sh.getValue i sh.lastCol) "NOTIFIED" = false)
    (hip : jsEqStr (sh.getValue i APPROVAL_COLUMN) "IN PROGRESS" = false) :
    (sendEmails sh).sheet.getValue i sh.lastCol = JSVal.str "NOTIFIED" ∧
    ∃ e ∈ (sendEmails sh).emails, e.1 = i ∧ e.2.1 = sh.getValue i 3 := by
  have hrm : rowEmailed sh sh.lastCol i = true := by
    unfold rowEmailed
    rw [hnot, hip]
    simp
  obtain ⟨H1, H2, H3, -, -⟩ := sendEmails_char sh hcol hrect
  constructor
  · rw [H1 i sh.lastCol (by omega)]
    rw [if_pos ⟨rfl, hi2, hil, hrm⟩]
  · have hmem : i ∈ (sendEmails sh).emails.map (fun e => e.1) := by
      rw [H2, List.mem_filter]
      exact ⟨List.mem_range'_1.mpr ⟨hi2, by omega⟩, hrm⟩
    obtain ⟨e, he, hei⟩ := List.mem_map.mp hmem
    refine ⟨e, he, hei, ?_⟩
    have hrec := H3 e he
    rw [hei] at hrec
    exact hrec

theorem c8_unrecognized_falls_through_witness :
    (sendEmails tsSheet).sheet.getValue 2 tsSheet.lastCol = JSVal.str "NOTIFIED" :=
  (c8_unrecognized_falls_through tsSheet 2 (by decide) (by decide) (by decide)
    (by decide) (by decide) (by decide)).1

/-- C9: a data row whose notified cell (the sheet's last column) already
reads 'NOTIFIED' is skipped entirely — none of its cells change and no
email entry carries its row index — and running `sendEmails` a second
time on the sheet produced by the first run (unchanged in between) sends
zero emails: every row is then either marked NOTIFIED or was an
IN PROGRESS row, and both are skipped. -/
theorem c9_notified_rows_skipped (sh : Sheet)
    (hrect : sh.rect = true) (hcol : 1 ≤ sh.lastCol) :
    (∀ i, 2 ≤ i → i ≤ sh.lastRow →
      jsEqStr (sh.getValue i sh.lastCol) "NOTIFIED" = true →
      (∀ c, 1 ≤ c → (sendEmails sh).sheet.getValue i c = sh.getValue i c) ∧
      (∀ e ∈ (sendEmails sh).emails, e.1 ≠ i)) ∧
    (sendEmails ((sendEmails sh).sheet)).emails = [] := by
  obtain ⟨H1, H2, H3, H4, H5⟩ := sendEmails_char sh hcol hrect
  constructor
  · intro i hi2 hil hnotif
    have hrm : rowEmailed sh sh.lastCol i = false := by
      unfold rowEmailed
      rw [hnotif]
      simp
    constructor
    · intro c hc
      rw [H1 i c hc]
      rw [if_neg (by rintro ⟨-, -, -, d⟩; rw [hrm] at d; simp at d)]
    · intro e he hei
      have hmem : e.1 ∈ (sendEmails sh).emails.map (fun x => x.1) :=
        List.mem_map_of_mem _ he
      rw [H2] at hmem
      have hfil := (List.mem_filter.mp hmem).2
      rw [hei, hrm] at hfil
      simp at hfil
  · have hlc : (sendEmails sh).sheet.lastCol = sh.lastCol := by
      cases hcells : (sendEmails sh).sheet.cells with
      | nil =>
          have h0 : sh.cells.length = 0 := by
            rw [← H4, hcells]
            rfl
          have h1 : sh.cells = [] := List.length_eq_zero.mp h0
          show ((sendEmails sh).sheet.cells.headD []).length = sh.lastCol
          rw [hcells]
          show (0 : Nat) = sh.lastCol
          unfold Sheet.lastCol
          rw [h1]
          rfl
      | cons row rest =>
          have hmem : row ∈ (sendEmails sh).sheet.cells := by
            rw [hcells]
            exact List.mem_cons_self row rest
          show ((sendEmails sh).sheet.cells.headD []).length = sh.lastCol
          rw [hcells]
          exact H5 row hmem
    have hlrow : (sendEmails sh).sheet.lastRow = sh.lastRow := H4
    have hallskip : ∀ i, 2 ≤ i → i ≤ sh.lastRow →
        rowEmailed ((sendEmails sh).sheet) sh.lastCol i = false := by
      intro i hi2 hil
      by_cases hrm : rowEmailed sh sh.lastCol i = true
      · unfold rowEmailed
        rw [H1 i sh.lastCol (by omega), if_pos ⟨rfl, hi2, hil, hrm⟩]
        simp [jsEqStr]
      · unfold rowEmailed
        rw [H1 i sh.lastCol (by omega),
          if_neg (by rintro ⟨-, -, -, d⟩; exact hrm d),
          H1 i APPROVAL_COLUMN (by decide),
          if_neg (by rintro ⟨-, -, -, d⟩; exact hrm d)]
        have hrm2 : rowEmailed sh sh.lastCol i = false := Bool.eq_false_iff.mpr hrm
        unfold rowEmailed at hrm2
        exact hrm2
    show ((List.range' 2 ((sendEmails sh).sheet.lastRow - 1)).foldl
        (sendStep ((sendEmails sh).sheet.lastCol))
        { sheet := (sendEmails sh).sheet, message := none, subject := none
        , emails := [] }).emails = []
    rw [hlc, hlrow]
    rw [sendLoop_all_skip sh.lastCol (sh.lastRow - 1) 2
      { sheet := (sendEmails sh).sheet, message := none, subject := none
      , emails := [] }
      (fun i h1 h2 => hallskip i h1 (lt_two_add_pred sh.lastRow i h1 h2))]

theorem c9_notified_rows_skipped_witness :
    (sendEmails ((sendEmails tsSheet).sheet)).emails = [] :=
  (c9_notified_rows_skipped tsSheet (by decide) (by decide)).2

/-! ### Characterizing calculatePay -/

theorem getD_oob (l : List α) (i : Nat) (d : α) (h : l.length ≤ i) :
    l.getD i d = d := by
  induction l generalizing i with
  | nil => cases i <;> rfl
  | cons x xs ih =>
      cases i with
      | zero => simp at h
      | succ n =>
          rw [List.getD_cons_succ]
          exact ih n (by simpa using h)

theorem getD_map_of_lt (l : List α) (f : α → β) (i : Nat) (d : β) (d0 : α)
    (h : i < l.length) : (l.map f).getD i d = f (l.getD i d0) := by
  induction l generalizing i with
  | nil => simp at h
  | cons x xs ih =>
      cases i with
      | zero => rfl
      | succ n =>
          simp only [List.map_cons, List.getD_cons_succ]
          exact ih n (by simpa using h)

theorem lastCol_of_rows (sh2 : Sheet) (L : Nat) (hlen : 1 ≤ sh2.cells.length)
    (hrows : ∀ row ∈ sh2.cells, row.length = L) : sh2.lastCol = L := by
  cases hcells : sh2.cells with
  | nil =>
      rw [hcells] at hlen
      simp at hlen
  | cons row rest =>
      show (sh2.cells.headD []).length = L
      rw [hcells]
      exact hrows row (by rw [hcells]; exact List.mem_cons_self row rest)

theorem hoursSum_eq (sh : Sheet) (i : Nat) :
    hoursSum sh i = jsAdd (jsAdd (jsAdd (jsAdd (jsAdd (JSVal.num 0)
      (sh.getValue i 4)) (sh.getValue i 5)) (sh.getValue i 6)) (sh.getValue i 7))
      (sh.getValue i 8) := rfl

theorem hoursSum_congr (sh1 sh2 : Sheet) (i : Nat)
    (h : ∀ j, 4 ≤ j → j ≤ 8 → sh1.getValue i j = sh2.getValue i j) :
    hoursSum sh1 i = hoursSum sh2 i := by
  rw [hoursSum_eq, hoursSum_eq, h 4 (by omega) (by omega), h 5 (by omega) (by omega),
    h 6 (by omega) (by omega), h 7 (by omega) (by omega), h 8 (by omega) (by omega)]

theorem hoursSum_num (sh : Sheet) (i : Nat) (a b c0 d e : Int)
    (h4 : sh.getValue i 4 = JSVal.num a) (h5 : sh.getValue i 5 = JSVal.num b)
    (h6 : sh.getValue i 6 = JSVal.num c0) (h7 : sh.getValue i 7 = JSVal.num d)
    (h8 : sh.getValue i 8 = JSVal.num e) :
    hoursSum sh i = JSVal.num (a + b + c0 + d + e) := by
  rw [hoursSum_eq, h4, h5, h6, h7, h8]
  simp [jsAdd]

/-- The sheet state after `insertColumnAfter(lastCol)` and the WEEKLY PAY
header write, before the pay loop. -/
def midPaySheet (sh : Sheet) : Sheet :=
  (sh.insertColumnAfter sh.lastCol).setValue 1 (sh.lastCol + 1) (JSVal.str "WEEKLY PAY")

theorem calculatePay_eq_fold (sh : Sheet) :
    calculatePay sh
      = (List.range' 2 (sh.lastRow - 1)).foldl (payStep sh.lastCol) (midPaySheet sh) := rfl

theorem midPaySheet_len (sh : Sheet) :
    (midPaySheet sh).cells.length = sh.cells.length := by
  simp [midPaySheet, Sheet.setValue, Sheet.insertColumnAfter, listModify_length]

theorem midPaySheet_rows (sh : Sheet)
    (hrows : ∀ row ∈ sh.cells, row.length = sh.lastCol) :
    ∀ row ∈ (midPaySheet sh).cells, row.length = sh.lastCol + 1 := by
  apply setValue_row_lengths
  intro row hrow
  rw [insertColumnAfter_end sh hrows] at hrow
  obtain ⟨row0, hrow0, he⟩ := List.mem_map.mp hrow
  rw [← he]
  simp [hrows row0 hrow0]

theorem midPaySheet_getValue_le (sh : Sheet)
    (hrows : ∀ row ∈ sh.cells, row.length = sh.lastCol) (r c : Nat)
    (hc1 : 1 ≤ c) (hcle : c ≤ sh.lastCol) :
    (midPaySheet sh).getValue r c = sh.getValue r c := by
  unfold midPaySheet
  rw [getValue_setValue_ne _ _ _ _ _ _ (Or.inr (by omega))]
  show ((sh.insertColumnAfter sh.lastCol).cells.getD (r-1) []).getD (c-1) (JSVal.str "")
    = sh.getValue r c
  rw [insertColumnAfter_end sh hrows]
  by_cases hr : r - 1 < sh.cells.length
  · rw [getD_map_of_lt _ _ _ _ [] hr]
    have hmem : sh.cells.getD (r-1) [] ∈ sh.cells := getD_mem_of_lt _ _ _ hr
    rw [List.getD_append _ _ _ _ (by rw [hrows _ hmem]; omega)]
    rfl
  · rw [getD_oob (sh.cells.map (fun row => row ++ [JSVal.str ""])) (r-1) []
        (by simp only [List.length_map]; omega)]
    rw [show sh.getValue r c = ((sh.cells.getD (r-1) []).getD (c-1) (JSVal.str "")) from rfl]
    rw [getD_oob sh.cells (r-1) [] (by omega)]

theorem midPaySheet_header (sh : Sheet)
    (hrows : ∀ row ∈ sh.cells, row.length = sh.lastCol) (hrow : 1 ≤ sh.lastRow) :
    (midPaySheet sh).getValue 1 (sh.lastCol + 1) = JSVal.str "WEEKLY PAY" := by
  unfold midPaySheet
  apply getValue_setValue_self
  · show 1 - 1 < (sh.insertColumnAfter sh.lastCol).cells.length
    rw [insertColumnAfter_end sh hrows]
    have h1 : sh.lastRow = sh.cells.length := rfl
    simp
    omega
  · rw [insertColumnAfter_end sh hrows]
    have hr1 : 1 - 1 < sh.cells.length := by
      have h1 : sh.lastRow = sh.cells.length := rfl
      omega
    rw [getD_map_of_lt _ _ _ _ [] hr1]
    have hmem : sh.cells.getD (1-1) [] ∈ sh.cells := getD_mem_of_lt _ _ _ hr1
    show sh.lastCol + 1 - 1 < ((sh.cells.getD (1-1) []) ++ [JSVal.str ""]).length
    rw [List.length_append, hrows _ hmem]
    simp

theorem payLoop_char (L : Nat) (hL : 9 ≤ L) :
    ∀ (n s : Nat) (sh0 : Sheet), 2 ≤ s →
      (∀ row ∈ sh0.cells, row.length = L + 1) →
      (s + n ≤ sh0.cells.length + 1 ∨ n = 0) →
      (∀ r c, 1 ≤ c →
        ((List.range' s n).foldl (payStep L) sh0).getValue r c
          = if c = L + 1 ∧ s ≤ r ∧ r < s + n
            then jsMul (hoursSum sh0 r) (sh0.getValue r HRLY_PAY_COLUMN)
            else sh0.getValue r c) ∧
      ((List.range' s n).foldl (payStep L) sh0).cells.length = sh0.cells.length ∧
      (∀ row ∈ ((List.range' s n).foldl (payStep L) sh0).cells, row.length = L + 1) := by
  intro n
  induction n with
  | zero =>
      intro s sh0 hs hrows hn
      refine ⟨?_, rfl, hrows⟩
      intro r c hc
      rw [if_neg (by rintro ⟨-, h1, h2⟩; omega)]
      rfl
  | succ m ih =>
      intro s sh0 hs hrows hn
      have hn2 : s + (m + 1) ≤ sh0.cells.length + 1 := by
        rcases hn with h | h
        · exact h
        · simp at h
      have hrange : List.range' s (m+1) = s :: List.range' (s+1) m := rfl
      have hstep : payStep L sh0 s
          = sh0.setValue s (L+1) (jsMul (hoursSum sh0 s) (sh0.getValue s HRLY_PAY_COLUMN)) :=
        rfl
      have hvalidrow : s - 1 < sh0.cells.length := by omega
      have hvalidcol : (L+1) - 1 < (sh0.cells.getD (s-1) []).length := by
        rw [hrows _ (getD_mem_of_lt _ _ _ hvalidrow)]
        omega
      have hlen1 : (payStep L sh0 s).cells.length = sh0.cells.length := by
        rw [hstep]
        simp [Sheet.setValue, listModify_length]
      have hrows1 : ∀ row ∈ (payStep L sh0 s).cells, row.length = L + 1 := by
        rw [hstep]
        exact setValue_row_lengths _ _ _ _ _ hrows
      have hread : ∀ r j, 1 ≤ j → j ≤ 9 →
          (payStep L sh0 s).getValue r j = sh0.getValue r j := by
        intro r j h1 h2
        rw [hstep, getValue_setValue_ne _ _ _ _ _ _ (Or.inr (by omega))]
      have hhours : ∀ r, hoursSum (payStep L sh0 s) r = hoursSum sh0 r := by
        intro r
        exact hoursSum_congr _ _ r (fun j hj1 hj2 => hread r j (by omega) (by omega))
      have hrate : ∀ r, (payStep L sh0 s).getValue r HRLY_PAY_COLUMN
          = sh0.getValue r HRLY_PAY_COLUMN := by
        intro r
        exact hread r HRLY_PAY_COLUMN (by decide) (by decide)
      obtain ⟨IH1, IH2, IH3⟩ :=
        ih (s+1) (payStep L sh0 s) (by omega) hrows1 (Or.inl (by omega))
      rw [hrange, List.foldl_cons]
      refine ⟨?_, by rw [IH2, hlen1], IH3⟩
      intro r c hc
      rw [IH1 r c hc]
      by_cases hif : c = L + 1 ∧ s + 1 ≤ r ∧ r < s + 1 + m
      · rw [if_pos hif]
        obtain ⟨a, b, c2⟩ := hif
        rw [if_pos ⟨a, by omega, by omega⟩, hhours, hrate]
      · rw [if_neg hif]
        by_cases hif2 : c = L + 1 ∧ s ≤ r ∧ r < s + (m + 1)
        · obtain ⟨a, b, c2⟩ := hif2
          have hr : r = s := by
            by_contra hne
            exact hif ⟨a, by omega, by omega⟩
          rw [if_pos ⟨a, b, c2⟩, hstep, hr, a]
          exact getValue_setValue_self _ _ _ _ hvalidrow hvalidcol
        · rw [if_neg hif2, hstep]
          by_cases hr : r = s
          · have hcne : c ≠ L + 1 := by
              intro hceq
              exact hif2 ⟨hceq, by omega, by omega⟩
            exact getValue_setValue_ne _ _ _ _ _ _ (Or.inr (by omega))
          · exact getValue_setValue_ne _ _ _ _ _ _ (Or.inl (by omega))

/-- C10: `calculatePay` appends exactly one column: the sheet gains one
column and keeps its rows; the new column's header cell (row 1) reads
'WEEKLY PAY'; for every data row i (2 ≤ i ≤ lastRow) whose hour cells
(columns 4–8) hold numbers and whose rate cell (column 9) holds a number,
the new column's cell holds (sum of the hour cells) * (rate); and every
cell of the original columns 1..lastCol is unchanged. -/
theorem c10_calculate_pay (sh : Sheet)
    (hrect : sh.rect = true) (h9 : 9 ≤ sh.lastCol) (hrow : 1 ≤ sh.lastRow) :
    (calculatePay sh).lastCol = sh.lastCol + 1 ∧
    (calculatePay sh).lastRow = sh.lastRow ∧
    (calculatePay sh).getValue 1 (sh.lastCol + 1) = JSVal.str "WEEKLY PAY" ∧
    (∀ r c, 1 ≤ c → c ≤ sh.lastCol →
      (calculatePay sh).getValue r c = sh.getValue r c) ∧
    (∀ (i : Nat) (hs : List Int) (rate : Int), 2 ≤ i → i ≤ sh.lastRow →
      (List.range' 4 5).map (fun j => sh.getValue i j) = hs.map JSVal.num →
      sh.getValue i 9 = JSVal.num rate →
      (calculatePay sh).getValue i (sh.lastCol + 1) = JSVal.num (hs.sum * rate)) := by
  have hrows := rect_row_lengths sh hrect
  have hmidrows := midPaySheet_rows sh hrows
  have hmidlen := midPaySheet_len sh
  have hbr : sh.lastRow = sh.cells.length := rfl
  obtain ⟨M1, M2, M3⟩ := payLoop_char sh.lastCol h9 (sh.lastRow - 1) 2 (midPaySheet sh)
    (by omega) hmidrows (by rw [hmidlen]; omega)
  rw [calculatePay_eq_fold]
  refine ⟨?_, ?_, ?_, ?_, ?_⟩
  · exact lastCol_of_rows _ _ (by rw [M2, hmidlen]; omega) M3
  · show (_ : Sheet).cells.length = sh.lastRow
    rw [M2, hmidlen]
    exact hbr.symm
  · rw [M1 1 (sh.lastCol + 1) (by omega), if_neg (by rintro ⟨-, h1, -⟩; omega)]
    exact midPaySheet_header sh hrows hrow
  · intro r c hc1 hc2
    rw [M1 r c hc1, if_neg (by rintro ⟨a, -, -⟩; omega)]
    exact midPaySheet_getValue_le sh hrows r c hc1 hc2
  · intro i hs rate hi2 hil hmap hrate
    have hlen5 : hs.length = 5 := by
      have := congrArg List.length hmap
      simpa using this.symm
    rcases hs with _ | ⟨a, hs⟩
    · simp at hlen5
    rcases hs with _ | ⟨b, hs⟩
    · simp at hlen5
    rcases hs with _ | ⟨c0, hs⟩
    · simp at hlen5
    rcases hs with _ | ⟨d, hs⟩
    · simp at hlen5
    rcases hs with _ | ⟨e, hs⟩
    · simp at hlen5
    have hnil : hs = [] := by
      have : hs.length = 0 := by simpa using hlen5
      exact List.length_eq_zero.mp this
    subst hnil
    rw [show List.range' 4 5 = [4, 5, 6, 7, 8] from rfl] at hmap
    simp only [List.map_cons, List.map_nil, List.cons.injEq, and_true] at hmap
    obtain ⟨h4, h5, h6, h7, h8⟩ := hmap
    rw [M1 i (sh.lastCol + 1) (by omega), if_pos ⟨rfl, hi2, by omega⟩]
    have hmid48 : ∀ j, 4 ≤ j → j ≤ 8 →
        (midPaySheet sh).getValue i j = sh.getValue i j :=
      fun j hj1 hj2 => midPaySheet_getValue_le sh hrows i j (by omega) (by omega)
    have hmid9 : (midPaySheet sh).getValue i HRLY_PAY_COLUMN = sh.getValue i 9 :=
      midPaySheet_getValue_le sh hrows i 9 (by omega) (by omega)
    rw [hoursSum_congr _ sh i hmid48, hmid9, hrate]
    rw [hoursSum_num sh i a b c0 d e h4 h5 h6 h7 h8]
    simp only [jsMul, JSVal.toNumber, List.sum_cons, List.sum_nil, JSVal.num.injEq]
    ring

/-- The sample timesheet for the C10 witness: a 9-column header row and one
data row with hours 1,2,3,4,5 in columns 4–8 and rate 10 in column 9. -/
def paySheet : Sheet :=
  { cells := [
      [JSVal.str "h", JSVal.str "h", JSVal.str "h", JSVal.str "h", JSVal.str "h",
       JSVal.str "h", JSVal.str "h", JSVal.str "h", JSVal.str "h"],
      [JSVal.str "nm", JSVal.str "x", JSVal.str "e@x", JSVal.num 1, JSVal.num 2,
       JSVal.num 3, JSVal.num 4, JSVal.num 5, JSVal.num 10]] }

theorem c10_calculate_pay_witness :
    (calculatePay paySheet).getValue 2 (paySheet.lastCol + 1)
      = JSVal.num (([1, 2, 3, 4, 5] : List Int).sum * 10) :=
  (c10_calculate_pay paySheet (by decide) (by decide) (by decide)).2.2.2.2
    2 [1, 2, 3, 4, 5] 10 (by decide) (by decide) (by decide) (by decide)
